import Mathlib

/-!
Shallow embedding of the video-transcoding core of `pdf2web-presenter`
(`src/media_extractor.py` with the constants of `src/config.py`).

The external encoding engine (ffmpeg / ffprobe) is modelled by an `Oracle`
that decides, per invocation, the exit code and the output file produced;
the media output directory is modelled as an association list from the
per-item paths built by `MediaProcessor.process_annotation` to abstract
file data (a content id plus a byte size).  Every path the orchestrator
builds for one item has a fixed shape (`safe_base` followed by a fixed
suffix), so paths are represented by the inductive type `MPath`; two
distinct constructors always render to distinct real path strings because
the MIME-derived extension produced by `_get_file_extension_from_mime` is
always `"."` followed by a single dot-free token, while the dedicated
suffixes (`.tmp.bin`, `.scale_hq_inter.mp4`, `.inter_h264.mp4`, the
`tempfile` names) contain interior dots or unique random parts.
-/

/-- Abstract contents of a file on disk: an identity for its bytes plus
its byte size (`os.path.getsize`). -/
structure FileData where
  content : Nat
  size : Nat
deriving DecidableEq, Repr

/-- The on-disk paths `process_annotation` can create for one media item
(all inside `media_output_dir`, all starting with the item's `safe_base`). -/
inductive MPath where
  /-- `safe_base + ".tmp.bin"`: the initial extraction file. -/
  | tmpBin : MPath
  /-- `safe_base + ext` for a single-dot extension `ext` (the MIME-derived
  name or the canonical target name `safe_base + target_extension`). -/
  | withExt (ext : String) : MPath
  /-- `safe_base + ".scale_hq_inter.mp4"`: the scaling-stage intermediate. -/
  | scaleInter : MPath
  /-- `safe_base + ".inter_h264.mp4"`: the H.264 compatibility intermediate. -/
  | interH264 : MPath
  /-- the `tempfile.NamedTemporaryFile` of `_perform_pre_resize`. -/
  | preResizeTemp : MPath
  /-- the `tempfile.NamedTemporaryFile` of `_perform_final_encode_step`
  (prefix `{base}_final_{vaapi|cpu}_`, one fresh `tag` per attempt). -/
  | finalTemp (vaapiAttempt : Bool) (tag : Nat) : MPath
deriving DecidableEq, Repr

/-- The media output directory, restricted to this item's paths. -/
abbrev FS := List (MPath × FileData)

def FS.look : FS → MPath → Option FileData
  | [], _ => none
  | (q, d) :: rest, p => if q = p then some d else FS.look rest p

/-- `os.path.exists`. -/
def FS.hasFile (fs : FS) (p : MPath) : Bool := (FS.look fs p).isSome

/-- `os.path.exists(p) and os.path.getsize(p) > 0`. -/
def FS.bigFile (fs : FS) (p : MPath) : Bool :=
  match FS.look fs p with
  | some d => decide (0 < d.size)
  | none => false

/-- `os.remove` (removes every entry at that path). -/
def FS.erase : FS → MPath → FS
  | [], _ => []
  | (q, d) :: rest, p => if q = p then FS.erase rest p else (q, d) :: FS.erase rest p

/-- Writing a file, overwriting any previous one at the same path. -/
def FS.write (fs : FS) (p : MPath) (d : FileData) : FS := (p, d) :: FS.erase fs p

/-- `shutil.move src dst` (same directory, so a rename that overwrites). -/
def FS.move (fs : FS) (src dst : MPath) : FS :=
  match FS.look fs src with
  | some d => FS.write (FS.erase fs src) dst d
  | none => fs

/-- The probed metadata of `_get_video_info`. -/
structure VideoInfo where
  width : Nat
  height : Nat
  codecName : String
deriving DecidableEq, Repr

/-- Outcome of one external encoder invocation: the process exit status,
whether it produced its output file, and that file's abstract data. -/
structure ExtResult where
  returncode : Int
  outExists : Bool
  content : Nat
  size : Nat
deriving DecidableEq, Repr

/-- The spec's failure criterion for an encode attempt: the engine exited
with status zero and produced a non-empty output file. -/
def resOk (r : ExtResult) : Prop :=
  r.returncode = 0 ∧ r.outExists = true ∧ 0 < r.size

instance (r : ExtResult) : Decidable (resOk r) := by
  unfold resOk; exact inferInstance

/-- Oracle fixing the outcome of every external interaction of one
`process_annotation` run: the (up to three) ffprobe calls, the outcomes of
each possible encoder invocation, and whether the `shutil.move` renames
inside `try`/`except OSError` blocks succeed. -/
structure Oracle where
  probe1 : Option VideoInfo
  probe2 : Option VideoInfo
  probe3 : Option VideoInfo
  preResizeRes : ExtResult
  scaleRes : ExtResult
  interRes : ExtResult
  final1 : ExtResult
  final2 : ExtResult
  final3 : ExtResult
  renameInitialOk : Bool
  renameNoTranscodeOk : Bool
  renameAfterFailOk : Bool
deriving Repr

/-- One recorded encoder invocation (ffprobe calls are not encoder runs
and are not recorded). -/
inductive Invocation where
  | preResize (input : MPath) : Invocation
  | scaleStep (input output : MPath) : Invocation
  | interEncode (input output : MPath) : Invocation
  | finalEncode (input output : MPath) (targetCodec : String)
      (sourceCodec : Option String) (attemptVaapiDecode useVaapiEnc : Bool)
      (audioOpts : List String) : Invocation
deriving DecidableEq, Repr

/-- `Invocation.audioOf`: the audio options of a final-encode invocation. -/
def Invocation.audioOf : Invocation → Option (List String)
  | .finalEncode _ _ _ _ _ _ a => some a
  | _ => none

/-! ### Constants from `src/config.py` and the class constant of
`MediaProcessor` -/

def VAAPI_DECODABLE_CODECS : List String :=
  ["h264", "hevc", "vp9", "av1", "mpeg2video", "vc1"]

def DEFAULT_VIDEO_CODEC : String := "h264"

def ALLOWED_VIDEO_CODECS : List String := ["h264", "vp9", "av1"]

def PREFERRED_FORMATS : List (String × List String) :=
  [(".mp4", ["h264"]), (".webm", ["vp9", "av1"])]

structure FormatInfo where
  ext : String
  mime : String
  containerOpts : List String
deriving DecidableEq, Repr

def CODEC_FORMAT_MAP : List (String × FormatInfo) :=
  [("h264", ⟨".mp4", "video/mp4", ["-movflags", "+faststart"]⟩),
   ("vp9", ⟨".webm", "video/webm", []⟩),
   ("av1", ⟨".webm", "video/webm", []⟩)]

def FFMPEG_CODEC_OPTIONS_CPU : List (String × List String) :=
  [("h264", ["-c:v", "libx264", "-preset", "medium", "-crf", "23",
             "-profile:v", "high", "-level:v", "4.1"]),
   ("vp9", ["-c:v", "libvpx-vp9", "-crf", "31", "-b:v", "0",
            "-deadline", "good", "-row-mt", "1"]),
   ("av1", ["-c:v", "libaom-av1", "-crf", "35", "-b:v", "0",
            "-cpu-used", "6", "-row-mt", "1",
            "-tile-columns", "2", "-tile-rows", "2"])]

def FFMPEG_CODEC_OPTIONS_VAAPI : List (String × List String) :=
  [("h264", ["-c:v", "h264_vaapi", "-qp", "23", "-profile:v", "high"]),
   ("vp9", ["-c:v", "vp9_vaapi", "-qp", "31"]),
   ("av1", ["-c:v", "av1_vaapi", "-rc_mode", "2", "-b:v", "1M"])]

def ENABLE_TRANSCODING : Bool := true

def MAX_PRE_RESIZE_WIDTH : Nat := 3840

def MAX_PRE_RESIZE_HEIGHT : Nat := 2160

/-! ### The processor state built by `MediaProcessor.__init__` -/

/-- Construction-time inputs of `MediaProcessor.__init__` (`magic` and the
output-directory string do not influence the claims and are omitted;
`isLinux` stands for `sys.platform.startswith('linux')`). -/
structure Processor where
  ffmpegPath : Option String
  ffprobePath : Option String
  scalingInput : Option Int
  useVaapiInput : Bool
  isLinux : Bool
  codecChoice : Option String
deriving Repr

/-- `self.enable_transcoding = config.ENABLE_TRANSCODING and bool(self.ffmpeg_path)`. -/
def Processor.enableTranscoding (p : Processor) : Bool :=
  ENABLE_TRANSCODING && p.ffmpegPath.isSome

/-- `_validate_and_set_scaling`. -/
def validateScaling (i : Option Int) : Option Nat :=
  match i with
  | none => none
  | some f => if 1 ≤ f ∧ f ≤ 100 then some f.toNat else none

def Processor.scalingFactor (p : Processor) : Option Nat :=
  validateScaling p.scalingInput

/-- First half of `_determine_target_format`: the effective target codec. -/
def determineTargetCodec (choice : Option String) : String :=
  match choice with
  | some c => if c ∈ ALLOWED_VIDEO_CODECS then c else DEFAULT_VIDEO_CODEC
  | none => DEFAULT_VIDEO_CODEC

/-- `self.target_codec` after the `CODEC_FORMAT_MAP` sanity fallback. -/
def Processor.targetCodec (p : Processor) : String :=
  let t := determineTargetCodec p.codecChoice
  match List.lookup t CODEC_FORMAT_MAP with
  | some _ => t
  | none => "h264"

def Processor.targetFormatInfo (p : Processor) : FormatInfo :=
  match List.lookup p.targetCodec CODEC_FORMAT_MAP with
  | some fi => fi
  | none => ⟨".mp4", "video/mp4", ["-movflags", "+faststart"]⟩

def Processor.targetExtension (p : Processor) : String :=
  p.targetFormatInfo.ext

def Processor.targetMime (p : Processor) : String :=
  p.targetFormatInfo.mime

/-- `_validate_vaapi_request`: the gates that actually clear `self.use_vaapi`
(the `/dev/dri` inspection only warns and never disables). -/
def Processor.useVaapi (p : Processor) : Bool :=
  p.useVaapiInput && p.ffmpegPath.isSome && p.isLinux &&
    ALLOWED_VIDEO_CODECS.any
      (fun c => (List.lookup c FFMPEG_CODEC_OPTIONS_VAAPI).isSome)

/-! ### Stage helpers of `MediaProcessor` -/

/-- `os.path.splitext(...)[1].lower()` on the rendered string of a path:
the suffix starting at the last dot.  `tmpBin` renders as
`safe_base + ".tmp.bin"` (so `.bin`); a `withExt e` path carries a
single-dot lowercase extension `e` produced by
`_get_file_extension_from_mime`; the fixed intermediates end in `.mp4`. -/
def MPath.splitextExtLower : MPath → String
  | .tmpBin => ".bin"
  | .withExt e => e
  | .scaleInter => ".mp4"
  | .interH264 => ".mp4"
  | .preResizeTemp => ".mp4"
  | .finalTemp _ _ => ""

/-- `_get_video_info`: `None` when ffprobe is missing, the input file is
missing, or the probe fails / yields no usable stream entry (the oracle
returns `none`, or a zero dimension / empty codec fails the
`if width and height and codec` check). -/
def getVideoInfo (p : Processor) (fs : FS) (path : MPath)
    (probeRes : Option VideoInfo) : Option VideoInfo :=
  if p.ffprobePath = none then none
  else if FS.hasFile fs path then
    match probeRes with
    | none => none
    | some vi =>
        if vi.width = 0 ∨ vi.height = 0 ∨ vi.codecName = "" then none
        else some vi
  else none

/-- `_perform_pre_resize`: returns `(success, input_path)` together with
the updated directory and the encoder invocations performed. -/
def performPreResize (p : Processor) (r : ExtResult) (fs : FS)
    (inputPath : MPath) (vinfo : Option VideoInfo) :
    Bool × MPath × FS × List Invocation :=
  if p.ffmpegPath = none then (false, inputPath, fs, [])
  else
    match vinfo with
    | none => (false, inputPath, fs, [])
    | some vi =>
        if MAX_PRE_RESIZE_WIDTH = 0 ∨ MAX_PRE_RESIZE_HEIGHT = 0 ∨
            (vi.width ≤ MAX_PRE_RESIZE_WIDTH ∧
             vi.height ≤ MAX_PRE_RESIZE_HEIGHT) then
          (false, inputPath, fs, [])
        else
          let fs1 := FS.write fs .preResizeTemp ⟨0, 0⟩
          let fs2 := if r.outExists then
              FS.write fs1 .preResizeTemp ⟨r.content, r.size⟩ else fs1
          if r.returncode == 0 && FS.bigFile fs2 .preResizeTemp then
            (true, inputPath, FS.move fs2 .preResizeTemp inputPath,
             [Invocation.preResize inputPath])
          else
            let fs3 := if FS.hasFile fs2 .preResizeTemp then
                FS.erase fs2 .preResizeTemp else fs2
            (false, inputPath, fs3, [Invocation.preResize inputPath])

/-- `_perform_scaling_step`. -/
def performScalingStep (p : Processor) (r : ExtResult) (fs : FS)
    (inputPath outPath : MPath) : Bool × FS × List Invocation :=
  if p.ffmpegPath = none ∨ p.scalingFactor = none then (false, fs, [])
  else
    let fs1 := if r.outExists then FS.write fs outPath ⟨r.content, r.size⟩ else fs
    if r.returncode == 0 && FS.bigFile fs1 outPath then
      (true, fs1, [Invocation.scaleStep inputPath outPath])
    else
      let fs2 := if FS.hasFile fs1 outPath then FS.erase fs1 outPath else fs1
      (false, fs2, [Invocation.scaleStep inputPath outPath])

/-- `_perform_intermediate_h264_encode`. -/
def performInterH264 (p : Processor) (r : ExtResult) (fs : FS)
    (inputPath outPath : MPath) : Bool × FS × List Invocation :=
  if p.ffmpegPath = none then (false, fs, [])
  else
    let fs1 := if r.outExists then FS.write fs outPath ⟨r.content, r.size⟩ else fs
    if r.returncode == 0 && FS.bigFile fs1 outPath then
      (true, fs1, [Invocation.interEncode inputPath outPath])
    else
      let fs2 := if FS.hasFile fs1 outPath then FS.erase fs1 outPath else fs1
      (false, fs2, [Invocation.interEncode inputPath outPath])

/-- The audio options chosen in `_perform_final_encode_step`, a function of
the target container extension alone (lines 902-910 of the source). -/
def finalAudioOpts (targetExtLower : String) : List String :=
  if targetExtLower = ".webm" then ["-c:a", "libopus", "-b:a", "96k"]
  else ["-c:a", "aac", "-b:a", "128k"]

structure FinalStepOut where
  ok : Bool
  fs : FS
  tr : List Invocation
deriving Repr

/-- The subprocess part of `_perform_final_encode_step`: the pre-created
temp file is (possibly) overwritten by ffmpeg, success moves it onto the
final path, and the `finally` block removes a failed temp. -/
def runFinalFfmpeg (r : ExtResult) (fs1 : FS) (temp finalOutputPath : MPath) :
    Bool × FS :=
  let fs2 := if r.outExists then FS.write fs1 temp ⟨r.content, r.size⟩ else fs1
  if r.returncode == 0 && FS.bigFile fs2 temp then
    (true, FS.move fs2 temp finalOutputPath)
  else
    (false, if FS.hasFile fs2 temp then FS.erase fs2 temp else fs2)

/-- `_perform_final_encode_step`.  The two `raise ValueError` branches for
a target codec missing from `FFMPEG_CODEC_OPTIONS_VAAPI` /
`FFMPEG_CODEC_OPTIONS_CPU` become `Except.error` (they fire after the
temp file is created and before the encoder runs). -/
def performFinalEncodeStep (p : Processor) (r : ExtResult) (fs : FS)
    (inputPath finalOutputPath : MPath) (targetCodec : String)
    (sourceCodecName : Option String) (attemptVaapiDecode useVaapiEnc : Bool)
    (tempTag : Nat) : Except String FinalStepOut :=
  if p.ffmpegPath = none then .ok ⟨false, fs, []⟩
  else
    let temp : MPath := .finalTemp useVaapiEnc tempTag
    let fs1 := FS.write fs temp ⟨0, 0⟩
    let audio := finalAudioOpts finalOutputPath.splitextExtLower
    let inv := Invocation.finalEncode inputPath finalOutputPath targetCodec
      sourceCodecName attemptVaapiDecode useVaapiEnc audio
    let missing := if useVaapiEnc then
        (List.lookup targetCodec FFMPEG_CODEC_OPTIONS_VAAPI).isNone
      else (List.lookup targetCodec FFMPEG_CODEC_OPTIONS_CPU).isNone
    if missing then
      .error (if useVaapiEnc then "Missing VAAPI config for " ++ targetCodec
              else "Missing CPU config for " ++ targetCodec)
    else
      let res := runFinalFfmpeg r fs1 temp finalOutputPath
      .ok ⟨res.1, res.2, [inv]⟩

/-! ### The final-transcode cascade (lines 543-650 of the source) -/

/-- `codec_for_final_encode and codec_for_final_encode in VAAPI_DECODABLE_CODECS`. -/
def codecDecodable : Option String → Bool
  | some c => VAAPI_DECODABLE_CODECS.contains c
  | none => false

structure CascadeOut where
  success : Bool
  interFile : Option MPath
  fs : FS
  tr : List Invocation
deriving Repr

/-- Phase 2 of the cascade: the CPU fallback encode (lines 629-650). -/
def cpuFallback (p : Processor) (r3 : ExtResult) (fs : FS) (pathFFE : MPath)
    (codecFFE : Option String) (decPossible : Bool) (interFile : Option MPath)
    (finalOut : MPath) : Except String CascadeOut :=
  let cpuInput := match interFile with
    | some ip => if FS.hasFile fs ip then ip else pathFFE
    | none => pathFFE
  let cpuSource := match interFile with
    | some ip => if cpuInput = ip then some "h264" else codecFFE
    | none => codecFFE
  let cpuDecode := if cpuSource = some "h264" then true else decPossible
  match performFinalEncodeStep p r3 fs cpuInput finalOut p.targetCodec
      cpuSource cpuDecode false 3 with
  | .error e => .error e
  | .ok s => .ok ⟨s.ok, interFile, s.fs, s.tr⟩

/-- The revised transcoding strategy (direct VAAPI, intermediate H.264 plus
VAAPI-from-intermediate, CPU fallback), exactly as sequenced in
`process_annotation`. -/
def runCascade (p : Processor) (o : Oracle) (fs : FS) (pathFFE : MPath)
    (codecFFE : Option String) : Except String CascadeOut :=
  let finalOut : MPath := .withExt p.targetExtension
  let decPossible : Bool := p.useVaapi && codecDecodable codecFFE
  let encPossible : Bool := p.useVaapi &&
    (List.lookup p.targetCodec FFMPEG_CODEC_OPTIONS_VAAPI).isSome
  if encPossible then
    match (if decPossible then
        performFinalEncodeStep p o.final1 fs pathFFE finalOut p.targetCodec
          codecFFE true true 1
      else .ok ⟨false, fs, []⟩) with
    | .error e => .error e
    | .ok s1 =>
      if s1.ok then .ok ⟨true, none, s1.fs, s1.tr⟩
      else
        let ires := performInterH264 p o.interRes s1.fs pathFFE .interH264
        if ires.1 then
          match performFinalEncodeStep p o.final2 ires.2.1 .interH264 finalOut
              p.targetCodec (some "h264") true true 2 with
          | .error e => .error e
          | .ok s2 =>
            if s2.ok then
              .ok ⟨true, some .interH264, s2.fs, s1.tr ++ ires.2.2 ++ s2.tr⟩
            else
              match cpuFallback p o.final3 s2.fs pathFFE codecFFE decPossible
                  (some .interH264) finalOut with
              | .error e => .error e
              | .ok c =>
                .ok ⟨c.success, c.interFile, c.fs,
                     s1.tr ++ ires.2.2 ++ s2.tr ++ c.tr⟩
        else
          match cpuFallback p o.final3 ires.2.1 pathFFE codecFFE decPossible
              (some .interH264) finalOut with
          | .error e => .error e
          | .ok c =>
            .ok ⟨c.success, c.interFile, c.fs, s1.tr ++ ires.2.2 ++ c.tr⟩
  else
    cpuFallback p o.final3 fs pathFFE codecFFE decPossible none finalOut

/-! ### Decision, result bookkeeping, cleanup (lines 513-734) -/

/-- The entry decision of the final-encode stage (lines 515-530). -/
def finalTranscodeNeeded (p : Processor) (codecFFE : Option String)
    (extFFE : String) : Bool :=
  let isPref := match List.lookup extFFE PREFERRED_FORMATS, codecFFE with
    | some cs, some c => cs.contains c
    | _, _ => false
  let userForces := match p.codecChoice with
    | some ch =>
        if ch = "" then false
        else
          let reqExt := (match List.lookup ch CODEC_FORMAT_MAP with
            | some fi => fi.ext
            | none => ".err").toLower
          decide (codecFFE ≠ some ch) || decide (reqExt ≠ extFFE)
    | none => false
  !isPref || userForces

structure FinishOut where
  resultingPath : MPath
  resultingMime : String
  fs : FS
deriving Repr

/-- Result update when the cascade ran (lines 652-681). -/
def finishAfterCascade (o : Oracle) (fs : FS) (pathFFE : MPath)
    (mimeFFE : String) (finalOut : MPath) (targetMime : String)
    (success : Bool) : FinishOut :=
  if success then ⟨finalOut, targetMime, fs⟩
  else if pathFFE ≠ finalOut then
    if o.renameAfterFailOk then
      let fs1 := if FS.hasFile fs finalOut then FS.erase fs finalOut else fs
      ⟨finalOut, mimeFFE, FS.move fs1 pathFFE finalOut⟩
    else ⟨pathFFE, mimeFFE, fs⟩
  else ⟨pathFFE, mimeFFE, fs⟩

/-- Result update when no final transcode was required or transcoding is
disabled (lines 683-697). -/
def finishNoTranscode (o : Oracle) (fs : FS) (pathFFE : MPath)
    (mimeFFE : String) (finalOut : MPath) : FinishOut :=
  if pathFFE ≠ finalOut then
    if o.renameNoTranscodeOk then
      let fs1 := if FS.hasFile fs finalOut then FS.erase fs finalOut else fs
      ⟨finalOut, mimeFFE, FS.move fs1 pathFFE finalOut⟩
    else ⟨pathFFE, mimeFFE, fs⟩
  else ⟨pathFFE, mimeFFE, fs⟩

/-- Cleanup of the intermediates (lines 700-719). -/
def cleanupPhase (fs : FS) (resultingPath : MPath) (interFile : Option MPath)
    (scaledInter : Option MPath) : FS :=
  let fs1 := match interFile with
    | some ip => if FS.hasFile fs ip then FS.erase fs ip else fs
    | none => fs
  let fs2 := if MPath.tmpBin ≠ resultingPath ∧ FS.hasFile fs1 .tmpBin then
      FS.erase fs1 .tmpBin else fs1
  match scaledInter with
  | some sp => if sp ≠ resultingPath ∧ FS.hasFile fs2 sp then
      FS.erase fs2 sp else fs2
  | none => fs2

/-- The per-item record returned by `process_annotation` (page index,
annot index and the pass-through rectangle are opaque and omitted). -/
structure ResultRecord where
  outputPath : MPath
  contentTypeDetected : String
deriving DecidableEq, Repr

/-- The observable outcome of one `process_annotation` run: the returned
record (or `None`), the final state of the item's directory entries, the
encoder invocations performed, and — as instrumentation — whether the
final-transcode cascade ran and succeeded. -/
structure PAOut where
  result : Option ResultRecord
  fs : FS
  tr : List Invocation
  cascadeStatus : Option Bool
deriving DecidableEq, Repr

/-- The state of the `path_for_final_encode` bookkeeping at entry of the
final-transcode stage (lines 481-511). -/
structure StageEntry where
  pathFFE : MPath
  codecFFE : Option String
  extFFE : String
  mimeFFE : String
  scaledInter : Option MPath
deriving Repr

/-- Steps 2 (decision) through 5 (cleanup and return) of
`process_annotation`, from the final-transcoding check onwards. -/
def afterScaling (p : Processor) (o : Oracle) (ent : StageEntry) (fs : FS)
    (trAcc : List Invocation) : Except String PAOut :=
  let finalOut : MPath := .withExt p.targetExtension
  if finalTranscodeNeeded p ent.codecFFE ent.extFFE && p.enableTranscoding then
    match runCascade p o fs ent.pathFFE ent.codecFFE with
    | .error e => .error e
    | .ok c =>
      let fin := finishAfterCascade o c.fs ent.pathFFE ent.mimeFFE finalOut
        p.targetMime c.success
      let fsC := cleanupPhase fin.fs fin.resultingPath c.interFile ent.scaledInter
      let res := if FS.hasFile fsC fin.resultingPath then
          some (ResultRecord.mk fin.resultingPath fin.resultingMime) else none
      .ok ⟨res, fsC, trAcc ++ c.tr, some c.success⟩
  else
    let fin := finishNoTranscode o fs ent.pathFFE ent.mimeFFE finalOut
    let fsC := cleanupPhase fin.fs fin.resultingPath none ent.scaledInter
    let res := if FS.hasFile fsC fin.resultingPath then
        some (ResultRecord.mk fin.resultingPath fin.resultingMime) else none
    .ok ⟨res, fsC, trAcc, none⟩

/-- `str.startswith(pre)`, via structural recursion on the character
lists so that concrete instances evaluate. -/
def strStartsWith (s pre : String) : Bool :=
  List.isPrefixOf pre.toList s.toList

/-- The identification part of `process_annotation` (probe, optional
pre-resize, re-probe, rename to the MIME-derived name, final re-probe):
returns `(resized, current_path, directory, video_info, invocations)`. -/
def identifyPhase (p : Processor) (o : Oracle) (fs1 : FS)
    (finalExtension : String) :
    Bool × MPath × FS × Option VideoInfo × List Invocation :=
  let vinfo0 := getVideoInfo p fs1 .tmpBin o.probe1
  let pre := performPreResize p o.preResizeRes fs1 .tmpBin vinfo0
  let resized := pre.1
  let current1 := pre.2.1
  let fs2 := pre.2.2.1
  let trPre := pre.2.2.2
  let vinfo1 := if resized then getVideoInfo p fs2 current1 o.probe2 else vinfo0
  let guess : MPath := .withExt finalExtension
  let ren : MPath × FS :=
    if current1 ≠ guess then
      if o.renameInitialOk then
        let fsa := if FS.hasFile fs2 guess then FS.erase fs2 guess else fs2
        (guess, FS.move fsa current1 guess)
      else (current1, fs2)
    else (current1, fs2)
  let vinfo2 := if vinfo1 = none ∨ resized then
      getVideoInfo p ren.2 ren.1 o.probe3 else vinfo1
  (resized, ren.1, ren.2, vinfo2, trPre)

/-- `MediaProcessor.process_annotation` for one annotation: extraction to
the `.tmp.bin` file, probing and optional pre-resize, the rename to the
MIME-derived name, the non-video early exit, the optional scaling step,
and the final-transcode stage.  `detectedMime` is the MIME type resolved
by the magic/PDF-metadata logic and `finalExtension` the single-dot
extension `_get_file_extension_from_mime` derives from it. -/
def processAnnot (p : Processor) (o : Oracle) (streamContent streamSize : Nat)
    (detectedMime finalExtension : String) : Except String PAOut :=
  if streamSize = 0 then .ok ⟨none, [], [], none⟩
  else
    let fs1 : FS := FS.write [] .tmpBin ⟨streamContent, streamSize⟩
    let idp := identifyPhase p o fs1 finalExtension
    let current2 := idp.2.1
    let fs3 := idp.2.2.1
    let sourceCodec := idp.2.2.2.1.map VideoInfo.codecName
    let trPre := idp.2.2.2.2
    if strStartsWith detectedMime "video/" then
      if (p.scalingFactor ≠ none ∧ p.scalingFactor ≠ some 100) ∧
          p.enableTranscoding = true then
        let scr := performScalingStep p o.scaleRes fs3 current2 .scaleInter
        if scr.1 then
          let fsS := if current2 ≠ .tmpBin ∧ FS.hasFile scr.2.1 current2 then
              FS.erase scr.2.1 current2 else scr.2.1
          afterScaling p o
            ⟨.scaleInter, some "h264", ".mp4", "video/mp4", some .scaleInter⟩
            fsS (trPre ++ scr.2.2)
        else
          let fsS := if FS.hasFile scr.2.1 .scaleInter then
              FS.erase scr.2.1 .scaleInter else scr.2.1
          afterScaling p o
            ⟨current2, sourceCodec, current2.splitextExtLower, detectedMime, none⟩
            fsS (trPre ++ scr.2.2)
      else
        afterScaling p o
          ⟨current2, sourceCodec, current2.splitextExtLower, detectedMime, none⟩
          fs3 trPre
    else
      let fs4 := if MPath.tmpBin ≠ current2 ∧ FS.hasFile fs3 .tmpBin then
          FS.erase fs3 .tmpBin else fs3
      .ok ⟨none, fs4, trPre, none⟩

/-! ### Basic facts about the directory model -/

theorem FS.look_erase (fs : FS) (p q : MPath) :
    FS.look (FS.erase fs p) q = if p = q then none else FS.look fs q := by
  induction fs with
  | nil => simp [FS.erase, FS.look]
  | cons hd tl ih =>
    obtain ⟨k, d⟩ := hd
    by_cases hk : k = p
    · subst hk
      by_cases hq : k = q
      · subst hq; simp [FS.erase, FS.look, ih]
      · simp [FS.erase, FS.look, hq, ih]
    · by_cases hq : k = q
      · subst hq
        have hpq : p ≠ k := fun h => hk h.symm
        simp [FS.erase, FS.look, hk, hpq, ih]
      · simp [FS.erase, FS.look, hk, hq, ih]

theorem FS.look_write (fs : FS) (p q : MPath) (d : FileData) :
    FS.look (FS.write fs p d) q = if p = q then some d else FS.look fs q := by
  by_cases h : p = q
  · subst h; simp [FS.write, FS.look]
  · simp [FS.write, FS.look, h, FS.look_erase]

theorem FS.erase_of_look_none (fs : FS) (p : MPath)
    (h : FS.look fs p = none) : FS.erase fs p = fs := by
  induction fs with
  | nil => simp [FS.erase]
  | cons hd tl ih =>
    obtain ⟨k, d⟩ := hd
    by_cases hk : k = p
    · subst hk; simp [FS.look] at h
    · simp [FS.look, hk] at h
      simp [FS.erase, hk, ih h]

theorem FS.erase_erase (fs : FS) (p : MPath) :
    FS.erase (FS.erase fs p) p = FS.erase fs p := by
  apply FS.erase_of_look_none
  simp [FS.look_erase]

theorem FS.erase_write_self (fs : FS) (p : MPath) (d : FileData) :
    FS.erase (FS.write fs p d) p = FS.erase fs p := by
  simp [FS.write, FS.erase, FS.erase_erase]

/-! ### Characterizations of the encode-step helpers -/

theorem scaleStep_eq (p : Processor) (r : ExtResult) (fs : FS)
    (i outP : MPath) (hff : p.ffmpegPath ≠ none)
    (hfac : p.scalingFactor ≠ none)
    (hfresh : FS.look fs outP = none) :
    performScalingStep p r fs i outP =
      (decide (resOk r),
       if resOk r then FS.write fs outP ⟨r.content, r.size⟩ else fs,
       [Invocation.scaleStep i outP]) := by
  unfold performScalingStep
  rw [if_neg (by tauto)]
  by_cases hex : r.outExists
  · simp only [hex, if_true]
    by_cases hrc : r.returncode == 0
    · by_cases hsz : 0 < r.size
      · have hok : resOk r := ⟨by simpa using hrc, hex, hsz⟩
        simp [FS.bigFile, FS.look_write, hrc, hsz, hok]
      · have hok : ¬ resOk r := fun h => hsz h.2.2
        simp [FS.bigFile, FS.look_write, hrc, hsz, hok, FS.hasFile,
              FS.erase_write_self, FS.erase_of_look_none fs outP hfresh]
    · have hok : ¬ resOk r := fun h => by simp [h.1] at hrc
      simp [FS.bigFile, FS.look_write, hrc, hok, FS.hasFile,
            FS.erase_write_self, FS.erase_of_look_none fs outP hfresh]
  · have hok : ¬ resOk r := fun h => by simp [h.2.1] at hex
    simp [hex, FS.bigFile, hfresh, hok, FS.hasFile]

theorem interStep_eq (p : Processor) (r : ExtResult) (fs : FS)
    (i outP : MPath) (hff : p.ffmpegPath ≠ none)
    (hfresh : FS.look fs outP = none) :
    performInterH264 p r fs i outP =
      (decide (resOk r),
       if resOk r then FS.write fs outP ⟨r.content, r.size⟩ else fs,
       [Invocation.interEncode i outP]) := by
  unfold performInterH264
  rw [if_neg hff]
  by_cases hex : r.outExists
  · simp only [hex, if_true]
    by_cases hrc : r.returncode == 0
    · by_cases hsz : 0 < r.size
      · have hok : resOk r := ⟨by simpa using hrc, hex, hsz⟩
        simp [FS.bigFile, FS.look_write, hrc, hsz, hok]
      · have hok : ¬ resOk r := fun h => hsz h.2.2
        simp [FS.bigFile, FS.look_write, hrc, hsz, hok, FS.hasFile,
              FS.erase_write_self, FS.erase_of_look_none fs outP hfresh]
    · have hok : ¬ resOk r := fun h => by simp [h.1] at hrc
      simp [FS.bigFile, FS.look_write, hrc, hok, FS.hasFile,
            FS.erase_write_self, FS.erase_of_look_none fs outP hfresh]
  · have hok : ¬ resOk r := fun h => by simp [h.2.1] at hex
    simp [hex, FS.bigFile, hfresh, hok, FS.hasFile]

theorem finalStep_eq (p : Processor) (r : ExtResult) (fs : FS)
    (i finalOut : MPath) (tc : String) (sc : Option String)
    (ad ue : Bool) (tag : Nat) (hff : p.ffmpegPath ≠ none)
    (hcfg : (if ue then List.lookup tc FFMPEG_CODEC_OPTIONS_VAAPI
             else List.lookup tc FFMPEG_CODEC_OPTIONS_CPU) ≠ none)
    (hfresh : FS.look fs (.finalTemp ue tag) = none) :
    performFinalEncodeStep p r fs i finalOut tc sc ad ue tag =
      .ok ⟨decide (resOk r),
           if resOk r then FS.write fs finalOut ⟨r.content, r.size⟩ else fs,
           [Invocation.finalEncode i finalOut tc sc ad ue
              (finalAudioOpts finalOut.splitextExtLower)]⟩ := by
  unfold performFinalEncodeStep
  rw [if_neg hff]
  have hmiss : (if ue then
      (List.lookup tc FFMPEG_CODEC_OPTIONS_VAAPI).isNone
    else (List.lookup tc FFMPEG_CODEC_OPTIONS_CPU).isNone) = false := by
    by_cases hue : ue <;> simp [hue] at hcfg ⊢ <;> simp [Option.isNone_iff_eq_none, hcfg]
  simp only [hmiss, Bool.false_eq_true, if_false]
  unfold runFinalFfmpeg
  have herase : FS.erase (FS.write fs (MPath.finalTemp ue tag) ⟨0, 0⟩)
      (MPath.finalTemp ue tag) = fs := by
    rw [FS.erase_write_self, FS.erase_of_look_none _ _ hfresh]
  by_cases hex : r.outExists
  · simp only [hex, if_true]
    by_cases hrc : r.returncode == 0
    · by_cases hsz : 0 < r.size
      · have hok : resOk r := ⟨by simpa using hrc, hex, hsz⟩
        simp [FS.bigFile, FS.look_write, hrc, hsz, hok, FS.move,
              FS.erase_write_self, FS.erase_of_look_none _ _ hfresh]
      · have hok : ¬ resOk r := fun h => hsz h.2.2
        simp [FS.bigFile, FS.look_write, hrc, hsz, hok, FS.hasFile,
              FS.erase_write_self, herase]
    · have hok : ¬ resOk r := fun h => by simp [h.1] at hrc
      simp [FS.bigFile, FS.look_write, hrc, hok, FS.hasFile,
            FS.erase_write_self, herase]
  · have hok : ¬ resOk r := fun h => by simp [h.2.1] at hex
    simp [hex, FS.bigFile, FS.look_write, hok, FS.hasFile, herase]

/-- The effective target codec always has CPU encoder options configured:
`_determine_target_format` only ever selects a member of
`ALLOWED_VIDEO_CODECS` (or the default), and `FFMPEG_CODEC_OPTIONS_CPU`
covers all of them. -/
theorem determineTargetCodec_mem (choice : Option String) :
    determineTargetCodec choice ∈ ALLOWED_VIDEO_CODECS := by
  unfold determineTargetCodec
  cases choice with
  | none => decide
  | some c =>
    by_cases hmem : c ∈ ALLOWED_VIDEO_CODECS
    · simp [hmem]
    · simp only [if_neg hmem]
      decide

theorem cpu_lookup_targetCodec (p : Processor) :
    List.lookup p.targetCodec FFMPEG_CODEC_OPTIONS_CPU ≠ none := by
  have hm := determineTargetCodec_mem p.codecChoice
  have h3 : determineTargetCodec p.codecChoice = "h264" ∨
      determineTargetCodec p.codecChoice = "vp9" ∨
      determineTargetCodec p.codecChoice = "av1" := by
    simpa [ALLOWED_VIDEO_CODECS] using hm
  unfold Processor.targetCodec
  rcases h3 with h | h | h <;> rw [h] <;> decide

/-- A VAAPI-encode attempt is only requested when the target codec is in
`FFMPEG_CODEC_OPTIONS_VAAPI`; this extracts that from the
`encode_vaapi_possible` flag. -/
theorem vaapi_lookup_of_enc (p : Processor)
    (h : (p.useVaapi &&
      (List.lookup p.targetCodec FFMPEG_CODEC_OPTIONS_VAAPI).isSome) = true) :
    List.lookup p.targetCodec FFMPEG_CODEC_OPTIONS_VAAPI ≠ none := by
  simp only [Bool.and_eq_true, Option.isSome_iff_exists] at h
  obtain ⟨-, v, hv⟩ := h
  simp [hv]

/-- Modelled from the spec: the cascade policy of §4.4, written out as the
expected outcome — a direct accelerated attempt exactly when the source is
accelerator-decodable, a compatibility intermediate encoded from the
original scaling-stage input followed by an accelerated attempt from it,
a CPU fallback, and first success short-circuiting everything later.
`runCascade_eq` proves the source cascade refines this. -/
def cascadeSpec (p : Processor) (o : Oracle) (fs : FS) (pathFFE : MPath)
    (codecFFE : Option String) : CascadeOut :=
  let finalOut : MPath := .withExt p.targetExtension
  let audio := finalAudioOpts finalOut.splitextExtLower
  let dec := p.useVaapi && codecDecodable codecFFE
  let enc := p.useVaapi &&
    (List.lookup p.targetCodec FFMPEG_CODEC_OPTIONS_VAAPI).isSome
  let a1 : Invocation :=
    .finalEncode pathFFE finalOut p.targetCodec codecFFE true true audio
  let aI : Invocation := .interEncode pathFFE .interH264
  let a2 : Invocation :=
    .finalEncode .interH264 finalOut p.targetCodec (some "h264") true true audio
  let a3i : Invocation :=
    .finalEncode .interH264 finalOut p.targetCodec (some "h264") true false audio
  let a3o : Invocation :=
    .finalEncode pathFFE finalOut p.targetCodec codecFFE
      (if codecFFE = some "h264" then true else dec) false audio
  let d1 : FileData := ⟨o.final1.content, o.final1.size⟩
  let dI : FileData := ⟨o.interRes.content, o.interRes.size⟩
  let d2 : FileData := ⟨o.final2.content, o.final2.size⟩
  let d3 : FileData := ⟨o.final3.content, o.final3.size⟩
  if enc then
    if dec then
      if resOk o.final1 then ⟨true, none, FS.write fs finalOut d1, [a1]⟩
      else if resOk o.interRes then
        if resOk o.final2 then
          ⟨true, some .interH264,
           FS.write (FS.write fs .interH264 dI) finalOut d2, [a1, aI, a2]⟩
        else if resOk o.final3 then
          ⟨true, some .interH264,
           FS.write (FS.write fs .interH264 dI) finalOut d3, [a1, aI, a2, a3i]⟩
        else
          ⟨false, some .interH264, FS.write fs .interH264 dI, [a1, aI, a2, a3i]⟩
      else if resOk o.final3 then
        ⟨true, some .interH264, FS.write fs finalOut d3, [a1, aI, a3o]⟩
      else ⟨false, some .interH264, fs, [a1, aI, a3o]⟩
    else
      if resOk o.interRes then
        if resOk o.final2 then
          ⟨true, some .interH264,
           FS.write (FS.write fs .interH264 dI) finalOut d2, [aI, a2]⟩
        else if resOk o.final3 then
          ⟨true, some .interH264,
           FS.write (FS.write fs .interH264 dI) finalOut d3, [aI, a2, a3i]⟩
        else
          ⟨false, some .interH264, FS.write fs .interH264 dI, [aI, a2, a3i]⟩
      else if resOk o.final3 then
        ⟨true, some .interH264, FS.write fs finalOut d3, [aI, a3o]⟩
      else ⟨false, some .interH264, fs, [aI, a3o]⟩
  else
    if resOk o.final3 then ⟨true, none, FS.write fs finalOut d3, [a3o]⟩
    else ⟨false, none, fs, [a3o]⟩

/-! ### Characterization of the CPU fallback and the whole cascade -/

theorem cpuFallback_none (p : Processor) (r3 : ExtResult) (fs : FS)
    (pathFFE finalOut : MPath) (codecFFE : Option String) (decP : Bool)
    (hff : p.ffmpegPath ≠ none)
    (hfresh : FS.look fs (.finalTemp false 3) = none) :
    cpuFallback p r3 fs pathFFE codecFFE decP none finalOut =
      .ok ⟨decide (resOk r3), none,
           if resOk r3 then FS.write fs finalOut ⟨r3.content, r3.size⟩ else fs,
           [Invocation.finalEncode pathFFE finalOut p.targetCodec codecFFE
              (if codecFFE = some "h264" then true else decP) false
              (finalAudioOpts finalOut.splitextExtLower)]⟩ := by
  unfold cpuFallback
  dsimp only
  rw [finalStep_eq p r3 fs pathFFE finalOut p.targetCodec codecFFE _ false 3
        hff (by simpa using cpu_lookup_targetCodec p) hfresh]

theorem cpuFallback_inter_present (p : Processor) (r3 : ExtResult) (fs : FS)
    (pathFFE finalOut : MPath) (codecFFE : Option String) (decP : Bool)
    (hff : p.ffmpegPath ≠ none)
    (hhas : FS.hasFile fs .interH264 = true)
    (hfresh : FS.look fs (.finalTemp false 3) = none) :
    cpuFallback p r3 fs pathFFE codecFFE decP (some .interH264) finalOut =
      .ok ⟨decide (resOk r3), some .interH264,
           if resOk r3 then FS.write fs finalOut ⟨r3.content, r3.size⟩ else fs,
           [Invocation.finalEncode .interH264 finalOut p.targetCodec
              (some "h264") true false
              (finalAudioOpts finalOut.splitextExtLower)]⟩ := by
  unfold cpuFallback
  dsimp only
  simp only [hhas, if_true, if_pos rfl, reduceIte]
  rw [finalStep_eq p r3 fs .interH264 finalOut p.targetCodec (some "h264") _
        false 3 hff (by simpa using cpu_lookup_targetCodec p) hfresh]

theorem cpuFallback_inter_absent (p : Processor) (r3 : ExtResult) (fs : FS)
    (pathFFE finalOut : MPath) (codecFFE : Option String) (decP : Bool)
    (hff : p.ffmpegPath ≠ none)
    (hno : FS.look fs .interH264 = none)
    (hPI : pathFFE ≠ .interH264)
    (hfresh : FS.look fs (.finalTemp false 3) = none) :
    cpuFallback p r3 fs pathFFE codecFFE decP (some .interH264) finalOut =
      .ok ⟨decide (resOk r3), some .interH264,
           if resOk r3 then FS.write fs finalOut ⟨r3.content, r3.size⟩ else fs,
           [Invocation.finalEncode pathFFE finalOut p.targetCodec codecFFE
              (if codecFFE = some "h264" then true else decP) false
              (finalAudioOpts finalOut.splitextExtLower)]⟩ := by
  unfold cpuFallback
  dsimp only
  have hh : FS.hasFile fs .interH264 = false := by simp [FS.hasFile, hno]
  simp only [hh, Bool.false_eq_true, if_false, if_neg hPI]
  rw [finalStep_eq p r3 fs pathFFE finalOut p.targetCodec codecFFE _ false 3
        hff (by simpa using cpu_lookup_targetCodec p) hfresh]

/-- The source cascade (lines 543-650) refines the spec's cascade policy:
under fresh temp names it computes exactly `cascadeSpec`. -/
theorem runCascade_eq (p : Processor) (o : Oracle) (fs : FS) (pathFFE : MPath)
    (codecFFE : Option String)
    (hff : p.ffmpegPath ≠ none)
    (hPI : pathFFE ≠ .interH264)
    (hfI : FS.look fs .interH264 = none)
    (hft : ∀ b t, FS.look fs (.finalTemp b t) = none) :
    runCascade p o fs pathFFE codecFFE =
      .ok (cascadeSpec p o fs pathFFE codecFFE) := by
  have hfI2 : ∀ d : FileData,
      FS.look (FS.write fs .interH264 d) (.finalTemp false 3) = none := by
    intro d; rw [FS.look_write]; simp [hft]
  have hfI3 : ∀ d : FileData,
      FS.look (FS.write fs .interH264 d) (.finalTemp true 2) = none := by
    intro d; rw [FS.look_write]; simp [hft]
  have hhasI : ∀ d : FileData,
      FS.hasFile (FS.write fs .interH264 d) .interH264 = true := by
    intro d; simp [FS.hasFile, FS.look_write]
  unfold runCascade cascadeSpec
  by_cases hE : (p.useVaapi &&
      (List.lookup p.targetCodec FFMPEG_CODEC_OPTIONS_VAAPI).isSome) = true
  · have hVA : List.lookup p.targetCodec FFMPEG_CODEC_OPTIONS_VAAPI ≠ none :=
      vaapi_lookup_of_enc p hE
    by_cases hD : (p.useVaapi && codecDecodable codecFFE) = true
    · simp only [hE, hD, if_true]
      rw [finalStep_eq p o.final1 fs pathFFE _ p.targetCodec codecFFE true true 1
            hff (by simpa using hVA) (hft true 1)]
      by_cases h1 : resOk o.final1
      · simp [h1]
      · simp only [h1, if_false, decide_eq_false h1]
        rw [interStep_eq p o.interRes fs pathFFE .interH264 hff hfI]
        by_cases hI : resOk o.interRes
        · simp only [hI, if_true, decide_eq_true hI]
          rw [finalStep_eq p o.final2 (FS.write fs .interH264
                ⟨o.interRes.content, o.interRes.size⟩) .interH264 _
                p.targetCodec (some "h264") true true 2 hff
                (by simpa using hVA) (hfI3 _)]
          by_cases h2 : resOk o.final2
          · simp [h2]
          · simp only [h2, if_false, decide_eq_false h2]
            rw [cpuFallback_inter_present p o.final3 _ pathFFE _ codecFFE _
                  hff (hhasI _) (hfI2 _)]
            by_cases h3 : resOk o.final3 <;> simp [h2, h3]
        · simp only [hI, if_false, decide_eq_false hI]
          rw [cpuFallback_inter_absent p o.final3 fs pathFFE _ codecFFE _
                hff hfI hPI (hft false 3)]
          by_cases h3 : resOk o.final3 <;> simp [h3]
    · simp only [hE, hD, if_true, Bool.false_eq_true, if_false]
      rw [interStep_eq p o.interRes fs pathFFE .interH264 hff hfI]
      by_cases hI : resOk o.interRes
      · simp only [hI, if_true, decide_eq_true hI]
        rw [finalStep_eq p o.final2 (FS.write fs .interH264
              ⟨o.interRes.content, o.interRes.size⟩) .interH264 _
              p.targetCodec (some "h264") true true 2 hff
              (by simpa using hVA) (hfI3 _)]
        by_cases h2 : resOk o.final2
        · simp [h2]
        · simp only [h2, if_false, decide_eq_false h2]
          rw [cpuFallback_inter_present p o.final3 _ pathFFE _ codecFFE _
                hff (hhasI _) (hfI2 _)]
          by_cases h3 : resOk o.final3 <;> simp [h2, h3]
      · simp only [hI, if_false, decide_eq_false hI]
        rw [cpuFallback_inter_absent p o.final3 fs pathFFE _ codecFFE _
              hff hfI hPI (hft false 3)]
        by_cases h3 : resOk o.final3 <;> simp [h3]
  · simp only [hE, Bool.false_eq_true, if_false]
    rw [cpuFallback_none p o.final3 fs pathFFE _ codecFFE _ hff (hft false 3)]
    by_cases h3 : resOk o.final3 <;> simp [h3]

/-! ### Facts about the result bookkeeping and the cleanup -/

theorem look_erase_ne (fs : FS) (p q : MPath) (hpq : p ≠ q) :
    FS.look (FS.erase fs p) q = FS.look fs q := by
  rw [FS.look_erase, if_neg hpq]

theorem look_erase_none (fs : FS) (p q : MPath)
    (h : FS.look fs q = none) : FS.look (FS.erase fs p) q = none := by
  rw [FS.look_erase]
  split_ifs <;> simp [h]

theorem look_condErase (b : Prop) [Decidable b] (fs : FS) (p q : MPath)
    (hpq : p ≠ q) :
    FS.look (if b then FS.erase fs p else fs) q = FS.look fs q := by
  split_ifs <;> simp [look_erase_ne fs p q hpq]

theorem look_condErase_none (b : Prop) [Decidable b] (fs : FS) (p q : MPath)
    (h : FS.look fs q = none) :
    FS.look (if b then FS.erase fs p else fs) q = none := by
  split_ifs
  · exact look_erase_none fs p q h
  · exact h

theorem look_selfCondErase_none (fs : FS) (p : MPath) :
    FS.look (if FS.hasFile fs p = true then FS.erase fs p else fs) p = none := by
  by_cases h : FS.hasFile fs p = true
  · rw [if_pos h]; simp [FS.look_erase]
  · rw [if_neg h]
    exact Option.not_isSome_iff_eq_none.mp (by simpa [FS.hasFile] using h)

theorem look_guardErase_none (fs : FS) (p resP : MPath) (hres : p ≠ resP) :
    FS.look (if p ≠ resP ∧ FS.hasFile fs p = true then FS.erase fs p else fs)
      p = none := by
  by_cases h : FS.hasFile fs p = true
  · rw [if_pos ⟨hres, h⟩]; simp [FS.look_erase]
  · rw [if_neg (by tauto)]
    exact Option.not_isSome_iff_eq_none.mp (by simpa [FS.hasFile] using h)

/-- The cleanup block never touches a path different from the initial temp
file, the compatibility intermediate, and the scaled intermediate. -/
theorem cleanupPhase_look (fs : FS) (resP : MPath)
    (interF scaledI : Option MPath) (q : MPath) (hq : q ≠ .tmpBin)
    (hi : ∀ ip, interF = some ip → q ≠ ip)
    (hs : ∀ sp, scaledI = some sp → q ≠ sp) :
    FS.look (cleanupPhase fs resP interF scaledI) q = FS.look fs q := by
  unfold cleanupPhase
  cases interF with
  | none =>
    cases scaledI with
    | none =>
      dsimp only
      rw [look_condErase _ _ _ _ (Ne.symm hq)]
    | some sp =>
      dsimp only
      rw [look_condErase _ _ _ _ (Ne.symm (hs sp rfl)),
          look_condErase _ _ _ _ (Ne.symm hq)]
  | some ip =>
    cases scaledI with
    | none =>
      dsimp only
      rw [look_condErase _ _ _ _ (Ne.symm hq),
          look_condErase _ _ _ _ (Ne.symm (hi ip rfl))]
    | some sp =>
      dsimp only
      rw [look_condErase _ _ _ _ (Ne.symm (hs sp rfl)),
          look_condErase _ _ _ _ (Ne.symm hq),
          look_condErase _ _ _ _ (Ne.symm (hi ip rfl))]

/-- After cleanup the initial `.tmp.bin` file is gone whenever the
resulting file is a different path. -/
theorem cleanupPhase_look_tmpBin (fs : FS) (resP : MPath)
    (interF scaledI : Option MPath) (hres : MPath.tmpBin ≠ resP) :
    FS.look (cleanupPhase fs resP interF scaledI) .tmpBin = none := by
  unfold cleanupPhase
  cases interF with
  | none =>
    cases scaledI with
    | none =>
      dsimp only
      exact look_guardErase_none _ _ _ hres
    | some sp =>
      dsimp only
      exact look_condErase_none _ _ _ _ (look_guardErase_none _ _ _ hres)
  | some ip =>
    cases scaledI with
    | none =>
      dsimp only
      exact look_guardErase_none _ _ _ hres
    | some sp =>
      dsimp only
      exact look_condErase_none _ _ _ _ (look_guardErase_none _ _ _ hres)

/-- After cleanup the compatibility intermediate tracked in
`intermediate_h264_file` is gone (it is removed with no further guard). -/
theorem cleanupPhase_look_interFile (fs : FS) (resP : MPath)
    (ip : MPath) (scaledI : Option MPath) :
    FS.look (cleanupPhase fs resP (some ip) scaledI) ip = none := by
  unfold cleanupPhase
  cases scaledI with
  | none =>
    dsimp only
    exact look_condErase_none _ _ _ _ (look_selfCondErase_none fs ip)
  | some sp =>
    dsimp only
    exact look_condErase_none _ _ _ _
      (look_condErase_none _ _ _ _ (look_selfCondErase_none fs ip))

/-- After cleanup the scaled intermediate is gone whenever the resulting
file is a different path. -/
theorem cleanupPhase_look_scaled (fs : FS) (resP : MPath)
    (interF : Option MPath) (sp : MPath) (hsp : sp ≠ resP) :
    FS.look (cleanupPhase fs resP interF (some sp)) sp = none := by
  unfold cleanupPhase
  cases interF with
  | none =>
    dsimp only
    exact look_guardErase_none _ _ _ hsp
  | some ip =>
    dsimp only
    exact look_guardErase_none _ _ _ hsp

theorem look_guardErase_res (fs : FS) (sp resP : MPath) :
    FS.look (if sp ≠ resP ∧ FS.hasFile fs sp = true then FS.erase fs sp else fs)
      resP = FS.look fs resP := by
  by_cases hsp : sp = resP
  · subst hsp
    rw [if_neg (by tauto)]
  · rw [look_condErase _ _ _ _ hsp]

/-- Cleanup never removes the resulting file (the `.tmp.bin` and scaled-file
removals are guarded by a comparison with `resulting_path`; the unguarded
intermediate removal concerns a distinct path). -/
theorem cleanupPhase_look_res (fs : FS) (resP : MPath)
    (interF scaledI : Option MPath)
    (hi : ∀ ip, interF = some ip → ip ≠ resP) :
    FS.look (cleanupPhase fs resP interF scaledI) resP = FS.look fs resP := by
  unfold cleanupPhase
  cases interF with
  | none =>
    cases scaledI with
    | none =>
      dsimp only
      rw [look_guardErase_res]
    | some sp =>
      dsimp only
      rw [look_guardErase_res, look_guardErase_res]
  | some ip =>
    cases scaledI with
    | none =>
      dsimp only
      rw [look_guardErase_res, look_condErase _ _ _ _ (hi ip rfl)]
    | some sp =>
      dsimp only
      rw [look_guardErase_res, look_guardErase_res,
          look_condErase _ _ _ _ (hi ip rfl)]

/-- When the rename succeeds (or is unnecessary), the no-transcode branch
delivers the working file unchanged under the canonical output name. -/
theorem finishNoTranscode_keeps (o : Oracle) (fs : FS)
    (pathFFE : MPath) (mime : String) (finalOut : MPath) (d : FileData)
    (hren : o.renameNoTranscodeOk = true)
    (hfile : FS.look fs pathFFE = some d) :
    (finishNoTranscode o fs pathFFE mime finalOut).resultingPath = finalOut ∧
    (finishNoTranscode o fs pathFFE mime finalOut).resultingMime = mime ∧
    FS.look (finishNoTranscode o fs pathFFE mime finalOut).fs finalOut =
      some d := by
  unfold finishNoTranscode
  by_cases hpe : pathFFE ≠ finalOut
  · rw [if_pos hpe, if_pos hren]
    refine ⟨rfl, rfl, ?_⟩
    dsimp only
    have h1 : FS.look
        (if FS.hasFile fs finalOut = true then FS.erase fs finalOut else fs)
        pathFFE = some d := by
      rw [look_condErase _ _ _ _ (Ne.symm hpe)]
      exact hfile
    unfold FS.move
    rw [h1, FS.look_write, if_pos rfl]
  · rw [not_ne_iff] at hpe
    subst hpe
    rw [if_neg (by simp)]
    exact ⟨rfl, rfl, hfile⟩

/-- **C2.** For every video item whose post-scaling extension/codec pair is
in the preferred-formats table and for which the caller requested no
explicit codec, the final-encode stage invokes zero encoder runs: the
current file is only renamed/moved (same `FileData`, hence identical
bytes) to the canonical output name, and the returned record keeps the
previously detected MIME type. -/
theorem claim2_preferred_no_encode (p : Processor) (o : Oracle)
    (ent : StageEntry) (fs : FS) (trAcc : List Invocation)
    (cs : List String) (c : String) (d : FileData)
    (hpref : List.lookup ent.extFFE PREFERRED_FORMATS = some cs)
    (hcodec : ent.codecFFE = some c)
    (hmem : cs.contains c = true)
    (hchoice : p.codecChoice = none)
    (hren : o.renameNoTranscodeOk = true)
    (hfile : FS.look fs ent.pathFFE = some d) :
    ∃ out, afterScaling p o ent fs trAcc = .ok out ∧
      out.tr = trAcc ∧
      out.result = some ⟨.withExt p.targetExtension, ent.mimeFFE⟩ ∧
      FS.look out.fs (.withExt p.targetExtension) = some d ∧
      out.cascadeStatus = none := by
  have hneed : finalTranscodeNeeded p ent.codecFFE ent.extFFE = false := by
    unfold finalTranscodeNeeded
    rw [hpref, hcodec, hchoice]
    simp only [Bool.or_false, Bool.not_eq_false']
    exact hmem
  obtain ⟨e1, e2, e3⟩ := finishNoTranscode_keeps o fs ent.pathFFE ent.mimeFFE
    (.withExt p.targetExtension) d hren hfile
  unfold afterScaling
  rw [hneed]
  simp only [Bool.false_and, Bool.false_eq_true, if_false]
  set fin := finishNoTranscode o fs ent.pathFFE ent.mimeFFE
    (.withExt p.targetExtension) with hfin
  have hlook : FS.look
      (cleanupPhase fin.fs fin.resultingPath none ent.scaledInter)
      fin.resultingPath = some d := by
    rw [cleanupPhase_look_res _ _ _ _ (by intro ip h; cases h), e1]
    exact e3
  have hhas : FS.hasFile
      (cleanupPhase fin.fs fin.resultingPath none ent.scaledInter)
      fin.resultingPath = true := by
    simp [FS.hasFile, hlook]
  refine ⟨_, rfl, rfl, ?_, ?_, rfl⟩
  · dsimp only
    rw [hhas]
    simp only [if_true, e1, e2]
  · dsimp only
    rw [← e1]
    exact hlook

/-- A failing encoder outcome, for concrete instantiations. -/
def rFail : ExtResult := ⟨1, false, 0, 0⟩

/-- A successful encoder outcome with content id `n`, for concrete
instantiations. -/
def rGood (n : Nat) : ExtResult := ⟨0, true, n, 1⟩

/-- Processor with both tools present, no scaling, no VAAPI, no explicit
codec. -/
def procPlain : Processor := ⟨some "ffmpeg", some "ffprobe", none, false, true, none⟩

/-- Oracle where every encode fails and every rename succeeds. -/
def oracleQuiet : Oracle :=
  ⟨none, none, none, rFail, rFail, rFail, rFail, rFail, rFail, true, true, true⟩

theorem claim2_preferred_no_encode_witness :
    ∃ out, afterScaling procPlain oracleQuiet
        ⟨.withExt ".mp4", some "h264", ".mp4", "video/mp4", none⟩
        [(.withExt ".mp4", ⟨5, 9⟩)] [] = .ok out ∧
      out.tr = [] ∧
      out.result = some ⟨.withExt (Processor.targetExtension procPlain), "video/mp4"⟩ ∧
      FS.look out.fs (.withExt (Processor.targetExtension procPlain)) = some ⟨5, 9⟩ ∧
      out.cascadeStatus = none :=
  claim2_preferred_no_encode procPlain oracleQuiet
    ⟨.withExt ".mp4", some "h264", ".mp4", "video/mp4", none⟩
    [(.withExt ".mp4", ⟨5, 9⟩)] [] ["h264"] "h264" ⟨5, 9⟩
    (by decide) rfl (by decide) rfl rfl (by decide)

/-- **C1.** When a final transcode is required and a VAAPI encode profile
exists for the target codec (`encode_vaapi_possible`), the cascade runs
its attempts in the fixed order: (1) the direct VAAPI pipeline, present
exactly when the source codec is VAAPI-decodable; (2) the H.264
compatibility intermediate encoded from the original scaling-stage input
`pathFFE` (never attempt 1's output), followed by a VAAPI attempt from
that intermediate; (3) a CPU-encode fallback; and any success
short-circuits every later attempt and intermediate encode. -/
theorem claim1_cascade_order (p : Processor) (o : Oracle) (fs : FS)
    (pathFFE : MPath) (codecFFE : Option String)
    (hff : p.ffmpegPath ≠ none)
    (henc : (p.useVaapi &&
      (List.lookup p.targetCodec FFMPEG_CODEC_OPTIONS_VAAPI).isSome) = true)
    (hPI : pathFFE ≠ .interH264)
    (hfI : FS.look fs .interH264 = none)
    (hft : ∀ b t, FS.look fs (.finalTemp b t) = none) :
    ∃ c, runCascade p o fs pathFFE codecFFE = .ok c ∧
      c.tr =
        (let finalOut : MPath := .withExt p.targetExtension
         let audio := finalAudioOpts finalOut.splitextExtLower
         let dec := p.useVaapi && codecDecodable codecFFE
         let a1 : Invocation :=
           .finalEncode pathFFE finalOut p.targetCodec codecFFE true true audio
         let aI : Invocation := .interEncode pathFFE .interH264
         let a2 : Invocation :=
           .finalEncode .interH264 finalOut p.targetCodec (some "h264")
             true true audio
         let a3i : Invocation :=
           .finalEncode .interH264 finalOut p.targetCodec (some "h264")
             true false audio
         let a3o : Invocation :=
           .finalEncode pathFFE finalOut p.targetCodec codecFFE
             (if codecFFE = some "h264" then true else dec) false audio
         (if dec = true then [a1] else []) ++
           (if dec = true ∧ resOk o.final1 then [] else
             [aI] ++
               (if resOk o.interRes then
                 [a2] ++ (if resOk o.final2 then [] else [a3i])
                else [a3o]))) ∧
      (c.success = true ↔
        ((p.useVaapi && codecDecodable codecFFE) = true ∧ resOk o.final1) ∨
        (resOk o.interRes ∧ resOk o.final2) ∨ resOk o.final3) := by
  refine ⟨cascadeSpec p o fs pathFFE codecFFE,
    runCascade_eq p o fs pathFFE codecFFE hff hPI hfI hft, ?_, ?_⟩
  · by_cases hD : (p.useVaapi && codecDecodable codecFFE) = true <;>
      by_cases h1 : resOk o.final1 <;>
      by_cases hI : resOk o.interRes <;>
      by_cases h2 : resOk o.final2 <;>
      by_cases h3 : resOk o.final3 <;>
      simp [cascadeSpec, henc, hD, h1, hI, h2, h3]
  · by_cases hD : (p.useVaapi && codecDecodable codecFFE) = true <;>
      by_cases h1 : resOk o.final1 <;>
      by_cases hI : resOk o.interRes <;>
      by_cases h2 : resOk o.final2 <;>
      by_cases h3 : resOk o.final3 <;>
      simp [cascadeSpec, henc, hD, h1, hI, h2, h3]

/-- Processor with VAAPI requested and granted (`use_vaapi = True`). -/
def procVaapi : Processor := ⟨some "ffmpeg", some "ffprobe", none, true, true, none⟩

/-- Oracle: direct VAAPI fails, the intermediate H.264 encode and the
VAAPI attempt from it succeed. -/
def oracleVaapiMix : Oracle :=
  ⟨none, none, none, rFail, rFail, rGood 21, rFail, rGood 22, rFail,
   true, true, true⟩

theorem claim1_cascade_order_witness :
    ∃ c, runCascade procVaapi oracleVaapiMix [] (.withExt ".webm")
        (some "hevc") = .ok c ∧
      c.tr =
        (let finalOut : MPath := .withExt (Processor.targetExtension procVaapi)
         let audio := finalAudioOpts finalOut.splitextExtLower
         let dec := procVaapi.useVaapi && codecDecodable (some "hevc")
         let a1 : Invocation :=
           .finalEncode (.withExt ".webm") finalOut procVaapi.targetCodec
             (some "hevc") true true audio
         let aI : Invocation := .interEncode (.withExt ".webm") .interH264
         let a2 : Invocation :=
           .finalEncode .interH264 finalOut procVaapi.targetCodec (some "h264")
             true true audio
         let a3i : Invocation :=
           .finalEncode .interH264 finalOut procVaapi.targetCodec (some "h264")
             true false audio
         let a3o : Invocation :=
           .finalEncode (.withExt ".webm") finalOut procVaapi.targetCodec
             (some "hevc")
             (if (some "hevc" : Option String) = some "h264" then true else dec)
             false audio
         (if dec = true then [a1] else []) ++
           (if dec = true ∧ resOk oracleVaapiMix.final1 then [] else
             [aI] ++
               (if resOk oracleVaapiMix.interRes then
                 [a2] ++ (if resOk oracleVaapiMix.final2 then [] else [a3i])
                else [a3o]))) ∧
      (c.success = true ↔
        ((procVaapi.useVaapi && codecDecodable (some "hevc")) = true ∧
          resOk oracleVaapiMix.final1) ∨
        (resOk oracleVaapiMix.interRes ∧ resOk oracleVaapiMix.final2) ∨
        resOk oracleVaapiMix.final3) :=
  claim1_cascade_order procVaapi oracleVaapiMix [] (.withExt ".webm")
    (some "hevc") (by decide) (by decide) (by decide) rfl (fun b t => rfl)

/-- **C5.** An encode attempt — scaling encode, intermediate H.264 encode,
or final encode step — reports success exactly when the encoder exits
with status 0 and the attempt's output file exists with size strictly
greater than zero (`resOk`); a non-zero exit or a zero-byte output makes
the attempt report failure. -/
theorem claim5_success_criterion (p : Processor) (r : ExtResult) (fs : FS)
    (i o1 o2 fo : MPath) (tc : String) (sc : Option String) (ad ue : Bool)
    (tag : Nat)
    (hff : p.ffmpegPath ≠ none)
    (hfac : p.scalingFactor ≠ none)
    (hf1 : FS.look fs o1 = none)
    (hf2 : FS.look fs o2 = none)
    (hcfg : (if ue then List.lookup tc FFMPEG_CODEC_OPTIONS_VAAPI
             else List.lookup tc FFMPEG_CODEC_OPTIONS_CPU) ≠ none)
    (hft : FS.look fs (.finalTemp ue tag) = none) :
    ((performScalingStep p r fs i o1).1 = true ↔ resOk r) ∧
    ((performInterH264 p r fs i o2).1 = true ↔ resOk r) ∧
    (∀ s, performFinalEncodeStep p r fs i fo tc sc ad ue tag = .ok s →
      (s.ok = true ↔ resOk r)) := by
  refine ⟨?_, ?_, ?_⟩
  · rw [scaleStep_eq p r fs i o1 hff hfac hf1]
    simp
  · rw [interStep_eq p r fs i o2 hff hf2]
    simp
  · intro s hs
    rw [finalStep_eq p r fs i fo tc sc ad ue tag hff hcfg hft] at hs
    cases hs
    simp

/-- Processor with a 50% scaling request. -/
def procScale : Processor := ⟨some "ffmpeg", some "ffprobe", some 50, false, true, none⟩

theorem claim5_success_criterion_witness :
    ((performScalingStep procScale (rGood 3) [] .tmpBin .scaleInter).1 = true ↔
        resOk (rGood 3)) ∧
    ((performInterH264 procScale (rGood 3) [] .tmpBin .interH264).1 = true ↔
        resOk (rGood 3)) ∧
    (∀ s, performFinalEncodeStep procScale (rGood 3) [] .tmpBin
        (.withExt ".mp4") "h264" none false false 3 = .ok s →
      (s.ok = true ↔ resOk (rGood 3))) :=
  claim5_success_criterion procScale (rGood 3) [] .tmpBin .scaleInter
    .interH264 (.withExt ".mp4") "h264" none false false 3
    (by decide) (by decide) rfl rfl (by decide) rfl

/-- Every final-encode invocation in a cascade trace carries the audio
options computed from the target container extension alone. -/
theorem cascadeSpec_audio (p : Processor) (o : Oracle) (fs : FS)
    (pathFFE : MPath) (codecFFE : Option String) :
    ∀ inv ∈ (cascadeSpec p o fs pathFFE codecFFE).tr,
      ∀ a, Invocation.audioOf inv = some a →
        a = finalAudioOpts p.targetExtension := by
  unfold cascadeSpec
  dsimp only
  split_ifs <;> intro inv hinv a ha <;> fin_cases hinv <;>
    simp [Invocation.audioOf, MPath.splitextExtLower] at ha <;>
    simp [ha, MPath.splitextExtLower]

/-- **C6.** In every final-encode attempt of one cascade, the audio
options are fixed solely by the target container: libopus at 96k for
`.webm` outputs and aac at 128k for every other container, identical
across all attempts and independent of the VAAPI flags or the retry
decision.  (No container selects a stream copy in
`_perform_final_encode_step`, so the "copy when the container strategy
allows it" clause never fires.) -/
theorem claim6_audio_fixed (p : Processor) (o : Oracle) (fs : FS)
    (pathFFE : MPath) (codecFFE : Option String) (c : CascadeOut)
    (hff : p.ffmpegPath ≠ none)
    (hPI : pathFFE ≠ .interH264)
    (hfI : FS.look fs .interH264 = none)
    (hft : ∀ b t, FS.look fs (.finalTemp b t) = none)
    (hc : runCascade p o fs pathFFE codecFFE = .ok c) :
    ∀ inv ∈ c.tr, ∀ a, Invocation.audioOf inv = some a →
      a = (if p.targetExtension = ".webm"
           then ["-c:a", "libopus", "-b:a", "96k"]
           else ["-c:a", "aac", "-b:a", "128k"]) := by
  rw [runCascade_eq p o fs pathFFE codecFFE hff hPI hfI hft] at hc
  cases hc
  intro inv hinv a ha
  have hfix := cascadeSpec_audio p o fs pathFFE codecFFE inv hinv a ha
  rw [hfix]
  simp [finalAudioOpts]

theorem ffmpeg_of_enable (p : Processor) (h : p.enableTranscoding = true) :
    p.ffmpegPath ≠ none := by
  intro hn
  unfold Processor.enableTranscoding at h
  rw [hn] at h
  simp [ENABLE_TRANSCODING] at h

/-- After a failed cascade with a succeeding rename, the input file of the
cascade survives under the canonical name and the pre-cascade MIME type is
kept. -/
theorem finishAfterCascade_keeps (o : Oracle) (fs : FS) (pathFFE : MPath)
    (mime : String) (finalOut : MPath) (tmime : String) (d : FileData)
    (hren : o.renameAfterFailOk = true)
    (hfile : FS.look fs pathFFE = some d) :
    (finishAfterCascade o fs pathFFE mime finalOut tmime false).resultingPath
        = finalOut ∧
    (finishAfterCascade o fs pathFFE mime finalOut tmime false).resultingMime
        = mime ∧
    FS.look (finishAfterCascade o fs pathFFE mime finalOut tmime false).fs
        finalOut = some d := by
  unfold finishAfterCascade
  simp only [Bool.false_eq_true, if_false]
  by_cases hpe : pathFFE ≠ finalOut
  · rw [if_pos hpe, if_pos hren]
    refine ⟨rfl, rfl, ?_⟩
    dsimp only
    have h1 : FS.look
        (if FS.hasFile fs finalOut = true then FS.erase fs finalOut else fs)
        pathFFE = some d := by
      rw [look_condErase _ _ _ _ (Ne.symm hpe)]
      exact hfile
    unfold FS.move
    rw [h1, FS.look_write, if_pos rfl]
  · rw [not_ne_iff] at hpe
    subst hpe
    rw [if_neg (by simp)]
    exact ⟨rfl, rfl, hfile⟩

/-- With every attempt failing, the cascade leaves the directory unchanged. -/
theorem cascadeSpec_allFail_fs (p : Processor) (o : Oracle) (fs : FS)
    (pathFFE : MPath) (codecFFE : Option String)
    (h1 : ¬ resOk o.final1) (hI : ¬ resOk o.interRes)
    (h3 : ¬ resOk o.final3) :
    (cascadeSpec p o fs pathFFE codecFFE).fs = fs := by
  unfold cascadeSpec
  dsimp only
  split_ifs <;> simp_all

/-- With every attempt failing, the cascade reports failure. -/
theorem cascadeSpec_allFail_success (p : Processor) (o : Oracle) (fs : FS)
    (pathFFE : MPath) (codecFFE : Option String)
    (h1 : ¬ resOk o.final1) (h2 : ¬ resOk o.final2) (h3 : ¬ resOk o.final3) :
    (cascadeSpec p o fs pathFFE codecFFE).success = false := by
  unfold cascadeSpec
  dsimp only
  split_ifs <;> simp_all

/-- The tracked compatibility intermediate is never the canonical output. -/
theorem cascadeSpec_interFile (p : Processor) (o : Oracle) (fs : FS)
    (pathFFE : MPath) (codecFFE : Option String) :
    ∀ ip, (cascadeSpec p o fs pathFFE codecFFE).interFile = some ip →
      ip = MPath.interH264 := by
  unfold cascadeSpec
  dsimp only
  split_ifs <;> intro ip h <;> simp_all

/-- **C4.** When every applicable cascade attempt fails, the orchestrator
keeps the file that was the cascade's input — renamed to the canonical
output name when the rename succeeds — and returns a result record with
that file's pre-cascade MIME type instead of discarding the item. -/
theorem claim4_all_fail_keeps (p : Processor) (o : Oracle) (ent : StageEntry)
    (fs : FS) (trAcc : List Invocation) (d : FileData)
    (hneed : finalTranscodeNeeded p ent.codecFFE ent.extFFE = true)
    (hen : p.enableTranscoding = true)
    (h1 : ¬ resOk o.final1) (hI : ¬ resOk o.interRes)
    (h2 : ¬ resOk o.final2) (h3 : ¬ resOk o.final3)
    (hPI : ent.pathFFE ≠ .interH264)
    (hfI : FS.look fs .interH264 = none)
    (hft : ∀ b t, FS.look fs (.finalTemp b t) = none)
    (hfile : FS.look fs ent.pathFFE = some d)
    (hren : o.renameAfterFailOk = true) :
    ∃ out, afterScaling p o ent fs trAcc = .ok out ∧
      out.cascadeStatus = some false ∧
      out.result = some ⟨.withExt p.targetExtension, ent.mimeFFE⟩ ∧
      FS.look out.fs (.withExt p.targetExtension) = some d := by
  have hff : p.ffmpegPath ≠ none := ffmpeg_of_enable p hen
  unfold afterScaling
  rw [hneed, hen]
  simp only [Bool.and_self, if_true]
  rw [runCascade_eq p o fs ent.pathFFE ent.codecFFE hff hPI hfI hft]
  dsimp only
  rw [cascadeSpec_allFail_fs p o fs ent.pathFFE ent.codecFFE h1 hI h3,
      cascadeSpec_allFail_success p o fs ent.pathFFE ent.codecFFE h1 h2 h3]
  obtain ⟨e1, e2, e3⟩ := finishAfterCascade_keeps o fs ent.pathFFE ent.mimeFFE
    (.withExt p.targetExtension) p.targetMime d hren hfile
  set fin := finishAfterCascade o fs ent.pathFFE ent.mimeFFE
    (.withExt p.targetExtension) p.targetMime false with hfin
  have hi : ∀ ip, (cascadeSpec p o fs ent.pathFFE ent.codecFFE).interFile
      = some ip → ip ≠ fin.resultingPath := by
    intro ip h
    rw [cascadeSpec_interFile p o fs ent.pathFFE ent.codecFFE ip h, e1]
    intro hcontra
    cases hcontra
  have hlook : FS.look
      (cleanupPhase fin.fs fin.resultingPath
        (cascadeSpec p o fs ent.pathFFE ent.codecFFE).interFile
        ent.scaledInter) fin.resultingPath = some d := by
    rw [cleanupPhase_look_res _ _ _ _ hi, e1]
    exact e3
  have hhas : FS.hasFile
      (cleanupPhase fin.fs fin.resultingPath
        (cascadeSpec p o fs ent.pathFFE ent.codecFFE).interFile
        ent.scaledInter) fin.resultingPath = true := by
    simp [FS.hasFile, hlook]
  refine ⟨_, rfl, rfl, ?_, ?_⟩
  · dsimp only
    rw [hhas]
    simp only [if_true, e1, e2]
  · dsimp only
    rw [← e1]
    exact hlook

theorem claim4_all_fail_keeps_witness :
    ∃ out, afterScaling procVaapi oracleQuiet
        ⟨.withExt ".webm", some "vp8", ".webm", "video/webm", none⟩
        [(.withExt ".webm", ⟨7, 4⟩)] [] = .ok out ∧
      out.cascadeStatus = some false ∧
      out.result = some ⟨.withExt (Processor.targetExtension procVaapi),
        "video/webm"⟩ ∧
      FS.look out.fs (.withExt (Processor.targetExtension procVaapi)) =
        some ⟨7, 4⟩ :=
  claim4_all_fail_keeps procVaapi oracleQuiet
    ⟨.withExt ".webm", some "vp8", ".webm", "video/webm", none⟩
    [(.withExt ".webm", ⟨7, 4⟩)] [] ⟨7, 4⟩
    (by decide) (by decide) (by decide) (by decide) (by decide) (by decide)
    (by decide) rfl (fun b t => rfl) (by decide) rfl

/-- **C8.** Every probe failure — probing tool missing, input file
missing, failed/unparseable probe, no video stream or degenerate stream
entry — makes `_get_video_info` return `None` instead of raising; and a
`None` probe result downstream disables pre-resize and makes the source
count as not hardware-decodable (the `decode_vaapi_possible` gate of the
direct VAAPI path is off). -/
theorem claim8_probe_degrades (p q : Processor) (fs : FS) (path : MPath)
    (pr : Option VideoInfo) (r : ExtResult) (vi : VideoInfo) :
    (p.ffprobePath = none → getVideoInfo p fs path pr = none) ∧
    (FS.look fs path = none → getVideoInfo p fs path pr = none) ∧
    (getVideoInfo p fs path none = none) ∧
    (vi.width = 0 ∨ vi.height = 0 ∨ vi.codecName = "" →
      getVideoInfo p fs path (some vi) = none) ∧
    (performPreResize q r fs path none = (false, path, fs, [])) ∧
    ((q.useVaapi && codecDecodable none) = false) := by
  refine ⟨?_, ?_, ?_, ?_, ?_, ?_⟩
  · intro h
    simp [getVideoInfo, h]
  · intro h
    unfold getVideoInfo
    split_ifs with h1 h2 <;> simp_all [FS.hasFile]
  · unfold getVideoInfo
    split_ifs <;> rfl
  · intro h
    unfold getVideoInfo
    split_ifs <;> simp_all
  · unfold performPreResize
    split_ifs <;> rfl
  · simp [codecDecodable]

/-- Processor whose probing tool is absent. -/
def procNoProbe : Processor := ⟨some "ffmpeg", none, none, false, true, none⟩

theorem claim8_probe_degrades_witness :
    getVideoInfo procNoProbe [] .tmpBin (some ⟨100, 100, "h264"⟩) = none ∧
    getVideoInfo procPlain [] .tmpBin (some ⟨100, 100, "h264"⟩) = none ∧
    getVideoInfo procPlain [(.tmpBin, ⟨1, 1⟩)] .tmpBin none = none ∧
    getVideoInfo procPlain [(.tmpBin, ⟨1, 1⟩)] .tmpBin (some ⟨0, 0, ""⟩) = none ∧
    performPreResize procPlain rFail [(.tmpBin, ⟨1, 1⟩)] .tmpBin none =
      (false, .tmpBin, [(.tmpBin, ⟨1, 1⟩)], []) ∧
    ((procVaapi.useVaapi && codecDecodable none) = false) :=
  ⟨(claim8_probe_degrades procNoProbe procPlain [] .tmpBin
      (some ⟨100, 100, "h264"⟩) rFail ⟨0, 0, ""⟩).1 rfl,
   (claim8_probe_degrades procPlain procPlain [] .tmpBin
      (some ⟨100, 100, "h264"⟩) rFail ⟨0, 0, ""⟩).2.1 rfl,
   (claim8_probe_degrades procPlain procPlain [(.tmpBin, ⟨1, 1⟩)] .tmpBin
      none rFail ⟨0, 0, ""⟩).2.2.1,
   (claim8_probe_degrades procPlain procPlain [(.tmpBin, ⟨1, 1⟩)] .tmpBin
      none rFail ⟨0, 0, ""⟩).2.2.2.1 (Or.inl rfl),
   (claim8_probe_degrades procPlain procPlain [(.tmpBin, ⟨1, 1⟩)] .tmpBin
      none rFail ⟨0, 0, ""⟩).2.2.2.2.1,
   (claim8_probe_degrades procPlain procVaapi [] .tmpBin none rFail
      ⟨0, 0, ""⟩).2.2.2.2.2⟩

/-! ### No exception crosses a stage boundary -/

theorem finalStep_isOk (p : Processor) (r : ExtResult) (fs : FS)
    (i fo : MPath) (tc : String) (sc : Option String) (ad ue : Bool)
    (tag : Nat)
    (hcfg : (if ue then List.lookup tc FFMPEG_CODEC_OPTIONS_VAAPI
             else List.lookup tc FFMPEG_CODEC_OPTIONS_CPU) ≠ none) :
    ∃ s, performFinalEncodeStep p r fs i fo tc sc ad ue tag = .ok s := by
  unfold performFinalEncodeStep
  by_cases hff : p.ffmpegPath = none
  · rw [if_pos hff]
    exact ⟨_, rfl⟩
  · rw [if_neg hff]
    dsimp only
    have hmiss : (if ue then
        (List.lookup tc FFMPEG_CODEC_OPTIONS_VAAPI).isNone
      else (List.lookup tc FFMPEG_CODEC_OPTIONS_CPU).isNone) = false := by
      by_cases hue : ue <;> simp [hue] at hcfg ⊢ <;>
        simp [Option.isNone_iff_eq_none, hcfg]
    rw [hmiss]
    simp only [Bool.false_eq_true, if_false]
    exact ⟨_, rfl⟩

theorem cpuFallback_isOk (p : Processor) (r3 : ExtResult) (fs : FS)
    (pathFFE : MPath) (codecFFE : Option String) (decP : Bool)
    (interFile : Option MPath) (finalOut : MPath) :
    ∃ c, cpuFallback p r3 fs pathFFE codecFFE decP interFile finalOut =
      .ok c := by
  unfold cpuFallback
  dsimp only
  obtain ⟨s, hs⟩ := finalStep_isOk p r3 fs _ finalOut p.targetCodec _ _ false 3
    (by simpa using cpu_lookup_targetCodec p)
  rw [hs]
  exact ⟨_, rfl⟩

theorem runCascade_isOk (p : Processor) (o : Oracle) (fs : FS)
    (pathFFE : MPath) (codecFFE : Option String) :
    ∃ c, runCascade p o fs pathFFE codecFFE = .ok c := by
  unfold runCascade
  dsimp only
  by_cases hE : (p.useVaapi &&
      (List.lookup p.targetCodec FFMPEG_CODEC_OPTIONS_VAAPI).isSome) = true
  · rw [if_pos hE]
    have hVA := vaapi_lookup_of_enc p hE
    obtain ⟨s1, hs1⟩ : ∃ s1, (if (p.useVaapi && codecDecodable codecFFE) = true
        then performFinalEncodeStep p o.final1 fs pathFFE
          (.withExt p.targetExtension) p.targetCodec codecFFE true true 1
        else .ok ⟨false, fs, []⟩) = .ok s1 := by
      split_ifs
      · exact finalStep_isOk p o.final1 fs pathFFE _ p.targetCodec codecFFE
          true true 1 (by simpa using hVA)
      · exact ⟨_, rfl⟩
    rw [hs1]
    dsimp only
    by_cases h1 : s1.ok = true
    · rw [if_pos h1]
      exact ⟨_, rfl⟩
    · rw [if_neg h1]
      by_cases hio : (performInterH264 p o.interRes s1.fs pathFFE .interH264).1
          = true
      · rw [if_pos hio]
        obtain ⟨s2, hs2⟩ := finalStep_isOk p o.final2
          (performInterH264 p o.interRes s1.fs pathFFE .interH264).2.1
          .interH264 (.withExt p.targetExtension) p.targetCodec (some "h264")
          true true 2 (by simpa using hVA)
        rw [hs2]
        dsimp only
        by_cases h2 : s2.ok = true
        · rw [if_pos h2]
          exact ⟨_, rfl⟩
        · rw [if_neg h2]
          obtain ⟨c3, hc3⟩ := cpuFallback_isOk p o.final3 s2.fs pathFFE
            codecFFE (p.useVaapi && codecDecodable codecFFE)
            (some .interH264) (.withExt p.targetExtension)
          rw [hc3]
          exact ⟨_, rfl⟩
      · rw [if_neg hio]
        obtain ⟨c3, hc3⟩ := cpuFallback_isOk p o.final3
          (performInterH264 p o.interRes s1.fs pathFFE .interH264).2.1 pathFFE
          codecFFE (p.useVaapi && codecDecodable codecFFE)
          (some .interH264) (.withExt p.targetExtension)
        rw [hc3]
        exact ⟨_, rfl⟩
  · rw [if_neg hE]
    exact cpuFallback_isOk p o.final3 fs pathFFE codecFFE _ none _

theorem afterScaling_isOk (p : Processor) (o : Oracle) (ent : StageEntry)
    (fs : FS) (trAcc : List Invocation) :
    ∃ out, afterScaling p o ent fs trAcc = .ok out := by
  unfold afterScaling
  split_ifs with h
  · obtain ⟨c, hc⟩ := runCascade_isOk p o fs ent.pathFFE ent.codecFFE
    rw [hc]
    exact ⟨_, rfl⟩
  · exact ⟨_, rfl⟩

theorem processAnnot_isOk (p : Processor) (o : Oracle) (sc ss : Nat)
    (dm fe : String) :
    ∃ out, processAnnot p o sc ss dm fe = .ok out := by
  unfold processAnnot
  dsimp only
  split_ifs <;> first
    | exact ⟨_, rfl⟩
    | exact afterScaling_isOk _ _ _ _ _

/-- **C9.** No stage helper of the processor propagates an exception to
`process_annotation` on an external-process failure: every run completes
with a returned value, so in particular the `raise ValueError` branches
of `_perform_final_encode_step` (modelled as `Except.error`) are
unreachable under the processor's own gating — VAAPI encodes are only
requested when the target codec is in the VAAPI map, and every allowed
target codec (hence every effective target codec) is in the CPU map. -/
theorem claim9_no_exceptions (p : Processor) (o : Oracle) (sc ss : Nat)
    (dm fe : String) :
    (∃ out, processAnnot p o sc ss dm fe = .ok out) ∧
    (∀ c ∈ ALLOWED_VIDEO_CODECS,
      (List.lookup c FFMPEG_CODEC_OPTIONS_CPU).isSome = true) ∧
    (List.lookup p.targetCodec FFMPEG_CODEC_OPTIONS_CPU).isSome = true :=
  ⟨processAnnot_isOk p o sc ss dm fe, by decide,
   by simpa [Option.isSome_iff_ne_none] using cpu_lookup_targetCodec p⟩

/-! ### Pointwise facts about pre-resize, scaling and identification -/

theorem preResize_path (p : Processor) (r : ExtResult) (fs : FS) (i : MPath)
    (v : Option VideoInfo) : (performPreResize p r fs i v).2.1 = i := by
  unfold performPreResize
  cases v <;> dsimp only <;> split_ifs <;> rfl

theorem preResize_look_other (p : Processor) (r : ExtResult) (fs : FS)
    (i : MPath) (v : Option VideoInfo) (q : MPath)
    (hq1 : q ≠ i) (hq2 : q ≠ .preResizeTemp) :
    FS.look (performPreResize p r fs i v).2.2.1 q = FS.look fs q := by
  unfold performPreResize
  cases v with
  | none => split_ifs <;> rfl
  | some vi =>
    dsimp only
    split_ifs with h1 h2 h3 h4 <;>
      simp_all [FS.move, FS.look_write, FS.look_erase, Ne.symm hq1, Ne.symm hq2]

theorem preResize_look_temp (p : Processor) (r : ExtResult) (fs : FS)
    (i : MPath) (v : Option VideoInfo)
    (hfresh : FS.look fs .preResizeTemp = none) (hip : i ≠ .preResizeTemp) :
    FS.look (performPreResize p r fs i v).2.2.1 .preResizeTemp = none := by
  unfold performPreResize
  cases v with
  | none => split_ifs <;> simp [hfresh]
  | some vi =>
    dsimp only
    split_ifs with h1 h2 h3 h4 <;>
      simp_all [FS.move, FS.look_write, FS.look_erase, FS.hasFile,
                Ne.symm hip, FS.erase_write_self,
                FS.erase_of_look_none fs _ hfresh]

theorem scaleStep_look_other (p : Processor) (r : ExtResult) (fs : FS)
    (i outP q : MPath) (hq : q ≠ outP) :
    FS.look (performScalingStep p r fs i outP).2.1 q = FS.look fs q := by
  unfold performScalingStep
  dsimp only
  split_ifs <;>
    simp_all [FS.look_write, FS.look_erase, Ne.symm hq]

theorem preResize_noFfmpeg (p : Processor) (r : ExtResult) (fs : FS)
    (i : MPath) (v : Option VideoInfo) (hff : p.ffmpegPath = none) :
    performPreResize p r fs i v = (false, i, fs, []) := by
  unfold performPreResize
  rw [if_pos hff]

theorem identifyPhase_current (p : Processor) (o : Oracle) (fs1 : FS)
    (fe : String) :
    (identifyPhase p o fs1 fe).2.1 = .withExt fe ∨
    (identifyPhase p o fs1 fe).2.1 = .tmpBin := by
  unfold identifyPhase
  dsimp only
  rw [preResize_path]
  split_ifs <;> simp

theorem renameStep_look_none (o : Oracle) (fs2 : FS) (cur guess q : MPath)
    (h2 : FS.look fs2 q = none) (hqg : q ≠ guess) :
    FS.look (if cur ≠ guess then
        if o.renameInitialOk = true then
          ((guess : MPath),
            FS.move (if FS.hasFile fs2 guess = true then FS.erase fs2 guess
              else fs2) cur guess)
        else (cur, fs2)
      else (cur, fs2)).2 q = none := by
  by_cases hc : cur ≠ guess
  · rw [if_pos hc]
    by_cases hr : o.renameInitialOk = true
    · rw [if_pos hr]
      dsimp only
      have hfq : FS.look (if FS.hasFile fs2 guess = true then
          FS.erase fs2 guess else fs2) q = none :=
        look_condErase_none _ _ _ _ h2
      unfold FS.move
      cases hl : FS.look (if FS.hasFile fs2 guess = true then
          FS.erase fs2 guess else fs2) cur with
      | none => exact hfq
      | some dd =>
        rw [FS.look_write, if_neg (Ne.symm hqg)]
        exact look_erase_none _ _ _ hfq
    · rw [if_neg hr]
      exact h2
  · rw [if_neg hc]
    exact h2

theorem identifyPhase_fresh (p : Processor) (o : Oracle) (d0 : FileData)
    (fe : String) (q : MPath)
    (hq1 : q ≠ .tmpBin) (hq2 : q ≠ .withExt fe) :
    FS.look (identifyPhase p o (FS.write [] .tmpBin d0) fe).2.2.1 q = none := by
  unfold identifyPhase
  dsimp only
  rw [preResize_path]
  have h2 : FS.look (performPreResize p o.preResizeRes
      (FS.write [] .tmpBin d0) .tmpBin
      (getVideoInfo p (FS.write [] .tmpBin d0) .tmpBin o.probe1)).2.2.1 q
      = none := by
    by_cases hq3 : q = MPath.preResizeTemp
    · subst hq3
      exact preResize_look_temp p o.preResizeRes _ .tmpBin _
        (by simp [FS.look_write, FS.look]) (by simp)
    · rw [preResize_look_other _ _ _ _ _ q hq1 hq3]
      simp [FS.look_write, Ne.symm hq1, FS.look]
  exact renameStep_look_none o _ .tmpBin (.withExt fe) q h2 hq2

theorem identifyPhase_noFfmpeg (p : Processor) (o : Oracle) (d0 : FileData)
    (fe : String) (hff : p.ffmpegPath = none) (hren : o.renameInitialOk = true) :
    (identifyPhase p o (FS.write [] .tmpBin d0) fe).2.1 = .withExt fe ∧
    (identifyPhase p o (FS.write [] .tmpBin d0) fe).2.2.1 =
      FS.write [] (.withExt fe) d0 ∧
    (identifyPhase p o (FS.write [] .tmpBin d0) fe).2.2.2.2 = [] := by
  unfold identifyPhase
  dsimp only
  rw [preResize_noFfmpeg p o.preResizeRes _ .tmpBin _ hff]
  dsimp only
  rw [if_pos (by simp : (MPath.tmpBin ≠ MPath.withExt fe)), if_pos hren]
  have hhg : FS.hasFile (FS.write [] MPath.tmpBin d0) (MPath.withExt fe)
      = false := by
    simp [FS.hasFile, FS.look_write, FS.look]
  rw [hhg]
  simp only [Bool.false_eq_true, if_false]
  refine ⟨trivial, ?_, trivial⟩
  dsimp only
  unfold FS.move
  rw [FS.look_write]
  simp only [if_pos rfl]
  rw [FS.erase_write_self]
  rfl

/-! ### What the cascade leaves on disk -/

theorem cascadeSpec_look_other (p : Processor) (o : Oracle) (fs : FS)
    (pathFFE : MPath) (codecFFE : Option String) (q : MPath)
    (hq1 : q ≠ .withExt p.targetExtension) (hq2 : q ≠ .interH264) :
    FS.look (cascadeSpec p o fs pathFFE codecFFE).fs q = FS.look fs q := by
  unfold cascadeSpec
  dsimp only
  split_ifs <;>
    simp [FS.look_write, Ne.symm hq1, Ne.symm hq2]

theorem cascadeSpec_look_final_of_success (p : Processor) (o : Oracle)
    (fs : FS) (pathFFE : MPath) (codecFFE : Option String)
    (h : (cascadeSpec p o fs pathFFE codecFFE).success = true) :
    (FS.look (cascadeSpec p o fs pathFFE codecFFE).fs
      (.withExt p.targetExtension)).isSome = true := by
  unfold cascadeSpec at h ⊢
  dsimp only at h ⊢
  split_ifs at h ⊢ <;> simp_all [FS.look_write]

theorem cascadeSpec_interNone_look (p : Processor) (o : Oracle) (fs : FS)
    (pathFFE : MPath) (codecFFE : Option String)
    (h : (cascadeSpec p o fs pathFFE codecFFE).interFile = none) :
    FS.look (cascadeSpec p o fs pathFFE codecFFE).fs .interH264 =
      FS.look fs .interH264 := by
  unfold cascadeSpec at h ⊢
  dsimp only at h ⊢
  split_ifs at h ⊢ <;> simp_all [FS.look_write]

theorem enable_of_cond (p : Processor) (b : Bool)
    (h : (b && p.enableTranscoding) = true) : p.ffmpegPath ≠ none := by
  refine ffmpeg_of_enable p ?_
  exact (Bool.and_eq_true _ _ |>.mp h).2

/-- If the final-transcode stage ran its cascade and succeeded, the
directory afterwards holds the canonical file and none of the
temporaries/intermediates of this item. -/
theorem afterScaling_success_clean (p : Processor) (o : Oracle)
    (ent : StageEntry) (fs : FS) (trAcc : List Invocation) (out : PAOut)
    (hout : afterScaling p o ent fs trAcc = .ok out)
    (hst : out.cascadeStatus = some true)
    (hPI : ent.pathFFE ≠ .interH264)
    (hfI : FS.look fs .interH264 = none)
    (hft : ∀ b t, FS.look fs (.finalTemp b t) = none)
    (hpre : FS.look fs .preResizeTemp = none)
    (hsc : ent.scaledInter = none ∨ ent.scaledInter = some MPath.scaleInter)
    (hscn : ent.scaledInter = none → FS.look fs .scaleInter = none) :
    (FS.look out.fs (.withExt p.targetExtension)).isSome = true ∧
    FS.look out.fs .tmpBin = none ∧
    FS.look out.fs .preResizeTemp = none ∧
    FS.look out.fs .scaleInter = none ∧
    FS.look out.fs .interH264 = none ∧
    (∀ b t, FS.look out.fs (.finalTemp b t) = none) := by
  unfold afterScaling at hout
  by_cases hcond : (finalTranscodeNeeded p ent.codecFFE ent.extFFE &&
      p.enableTranscoding) = true
  · rw [if_pos hcond] at hout
    have hff : p.ffmpegPath ≠ none := enable_of_cond p _ hcond
    rw [runCascade_eq p o fs ent.pathFFE ent.codecFFE hff hPI hfI hft] at hout
    dsimp only at hout
    set c := cascadeSpec p o fs ent.pathFFE ent.codecFFE with hc
    cases hout
    simp only at hst
    have hsucc : c.success = true := by
      cases hcs : c.success
      · rw [hcs] at hst
        cases hst
      · rfl
    have hfin : finishAfterCascade o c.fs ent.pathFFE ent.mimeFFE
        (.withExt p.targetExtension) p.targetMime c.success =
        ⟨.withExt p.targetExtension, p.targetMime, c.fs⟩ := by
      rw [hsucc]
      rfl
    rw [hfin]
    dsimp only
    have hint : ∀ ip, c.interFile = some ip → ip = MPath.interH264 :=
      cascadeSpec_interFile p o fs ent.pathFFE ent.codecFFE
    have hintne : ∀ ip, c.interFile = some ip →
        ip ≠ MPath.withExt p.targetExtension := by
      intro ip h hcontra
      rw [hint ip h] at hcontra
      cases hcontra
    refine ⟨?_, ?_, ?_, ?_, ?_, ?_⟩
    · rw [cleanupPhase_look_res _ _ _ _ hintne]
      exact cascadeSpec_look_final_of_success p o fs ent.pathFFE
        ent.codecFFE hsucc
    · exact cleanupPhase_look_tmpBin _ _ _ _ (by simp)
    · rw [cleanupPhase_look _ _ _ _ _ (by simp)
          (fun ip h => by rw [hint ip h]; simp)
          (fun sp h => by
            rcases hsc with h0 | h0
            · rw [h0] at h; cases h
            · rw [h0] at h; cases h; simp)]
      rw [cascadeSpec_look_other p o fs ent.pathFFE ent.codecFFE _
          (by simp) (by simp)]
      exact hpre
    · rcases hsc with h0 | h0
      · rw [cleanupPhase_look _ _ _ _ _ (by simp)
            (fun ip h => by rw [hint ip h]; simp)
            (fun sp h => by rw [h0] at h; cases h)]
        rw [cascadeSpec_look_other p o fs ent.pathFFE ent.codecFFE _
            (by simp) (by simp)]
        exact hscn h0
      · rw [h0]
        exact cleanupPhase_look_scaled _ _ _ _ (by simp)
    · cases hif : c.interFile with
      | some ip =>
        have hip := hint ip hif
        subst hip
        exact cleanupPhase_look_interFile _ _ _ _
      | none =>
        rw [cleanupPhase_look _ _ _ _ _ (by simp)
            (fun ip h => by cases h)
            (fun sp h => by
              rcases hsc with h0 | h0
              · rw [h0] at h; cases h
              · rw [h0] at h; cases h; simp)]
        rw [cascadeSpec_interNone_look p o fs ent.pathFFE ent.codecFFE hif]
        exact hfI
    · intro b t
      rw [cleanupPhase_look _ _ _ _ _ (by simp)
          (fun ip h => by rw [hint ip h]; simp)
          (fun sp h => by
            rcases hsc with h0 | h0
            · rw [h0] at h; cases h
            · rw [h0] at h; cases h; simp)]
      rw [cascadeSpec_look_other p o fs ent.pathFFE ent.codecFFE _
          (by simp) (by simp)]
      exact hft b t
  · rw [if_neg hcond] at hout
    cases hout
    simp at hst

/-- **C3.** For every item whose final-transcode cascade ends in success,
when `process_annotation` returns, the canonical output file (safe base +
target extension) is present and none of the temporaries or intermediates
created for the item remain: the initial `.tmp.bin` extraction file, the
pre-resize temp, the `.scale_hq_inter.mp4` scaled intermediate, the
`.inter_h264.mp4` compatibility intermediate (whether or not it fed the
winning attempt), and every per-attempt final-encode temporary. -/
theorem claim3_success_cleanup (p : Processor) (o : Oracle) (sc ss : Nat)
    (dm fe : String) (out : PAOut)
    (hout : processAnnot p o sc ss dm fe = .ok out)
    (hst : out.cascadeStatus = some true) :
    (FS.look out.fs (.withExt p.targetExtension)).isSome = true ∧
    FS.look out.fs .tmpBin = none ∧
    FS.look out.fs .preResizeTemp = none ∧
    FS.look out.fs .scaleInter = none ∧
    FS.look out.fs .interH264 = none ∧
    (∀ b t, FS.look out.fs (.finalTemp b t) = none) := by
  unfold processAnnot at hout
  by_cases hss : ss = 0
  · rw [if_pos hss] at hout
    cases hout
    simp at hst
  · rw [if_neg hss] at hout
    dsimp only at hout
    set cur := (identifyPhase p o (FS.write [] MPath.tmpBin ⟨sc, ss⟩) fe).2.1
      with hcur
    set fs3 := (identifyPhase p o (FS.write [] MPath.tmpBin ⟨sc, ss⟩) fe).2.2.1
      with hfs3
    have hcur2 : cur = MPath.withExt fe ∨ cur = MPath.tmpBin :=
      identifyPhase_current p o _ fe
    have hcurne : ∀ q : MPath, q ≠ .tmpBin → q ≠ .withExt fe → cur ≠ q := by
      intro q h1 h2 hc
      rcases hcur2 with h | h <;> rw [h] at hc
      · exact h2 hc.symm
      · exact h1 hc.symm
    have hfresh3 : ∀ q : MPath, q ≠ .tmpBin → q ≠ .withExt fe →
        FS.look fs3 q = none := by
      intro q h1 h2
      rw [hfs3]
      exact identifyPhase_fresh p o _ fe q h1 h2
    set scr := performScalingStep p o.scaleRes fs3 cur .scaleInter with hscr
    have hscr_other : ∀ q : MPath, q ≠ .scaleInter →
        FS.look scr.2.1 q = FS.look fs3 q := by
      intro q hq
      rw [hscr]
      exact scaleStep_look_other p o.scaleRes fs3 cur .scaleInter q hq
    have hPIcur : cur ≠ MPath.interH264 := hcurne _ (by simp) (by simp)
    split_ifs at hout with h1 h2 h3 h4 h5 h6
    · -- scaling ran and succeeded; pre-scaled file deleted
      refine afterScaling_success_clean p o _ _ _ out hout hst (by simp)
        ?_ ?_ ?_ (Or.inr rfl) (by intro h; simp at h)
      · rw [look_erase_ne scr.2.1 cur MPath.interH264 hPIcur,
            hscr_other MPath.interH264 (by simp),
            hfresh3 MPath.interH264 (by simp) (by simp)]
      · intro b t
        rw [look_erase_ne scr.2.1 cur (MPath.finalTemp b t)
              (hcurne (MPath.finalTemp b t) (by simp) (by simp)),
            hscr_other (MPath.finalTemp b t) (by simp),
            hfresh3 (MPath.finalTemp b t) (by simp) (by simp)]
      · rw [look_erase_ne scr.2.1 cur MPath.preResizeTemp
              (hcurne MPath.preResizeTemp (by simp) (by simp)),
            hscr_other MPath.preResizeTemp (by simp),
            hfresh3 MPath.preResizeTemp (by simp) (by simp)]
    · -- scaling ran and succeeded; no pre-scaled file to delete
      refine afterScaling_success_clean p o _ _ _ out hout hst (by simp)
        ?_ ?_ ?_ (Or.inr rfl) (by intro h; simp at h)
      · rw [hscr_other MPath.interH264 (by simp),
            hfresh3 MPath.interH264 (by simp) (by simp)]
      · intro b t
        rw [hscr_other (MPath.finalTemp b t) (by simp),
            hfresh3 (MPath.finalTemp b t) (by simp) (by simp)]
      · rw [hscr_other MPath.preResizeTemp (by simp),
            hfresh3 MPath.preResizeTemp (by simp) (by simp)]
    · -- scaling ran and failed; partial intermediate removed
      refine afterScaling_success_clean p o _ _ _ out hout hst hPIcur
        ?_ ?_ ?_ (Or.inl rfl) ?_
      · rw [look_erase_ne scr.2.1 MPath.scaleInter MPath.interH264 (by simp),
            hscr_other MPath.interH264 (by simp),
            hfresh3 MPath.interH264 (by simp) (by simp)]
      · intro b t
        rw [look_erase_ne scr.2.1 MPath.scaleInter (MPath.finalTemp b t)
              (by simp),
            hscr_other (MPath.finalTemp b t) (by simp),
            hfresh3 (MPath.finalTemp b t) (by simp) (by simp)]
      · rw [look_erase_ne scr.2.1 MPath.scaleInter MPath.preResizeTemp
              (by simp),
            hscr_other MPath.preResizeTemp (by simp),
            hfresh3 MPath.preResizeTemp (by simp) (by simp)]
      · intro h
        rw [FS.look_erase, if_pos rfl]
    · -- scaling ran and failed; no partial intermediate on disk
      refine afterScaling_success_clean p o _ _ _ out hout hst hPIcur
        ?_ ?_ ?_ (Or.inl rfl) ?_
      · rw [hscr_other MPath.interH264 (by simp),
            hfresh3 MPath.interH264 (by simp) (by simp)]
      · intro b t
        rw [hscr_other (MPath.finalTemp b t) (by simp),
            hfresh3 (MPath.finalTemp b t) (by simp) (by simp)]
      · rw [hscr_other MPath.preResizeTemp (by simp),
            hfresh3 MPath.preResizeTemp (by simp) (by simp)]
      · intro h
        cases hl : FS.look scr.2.1 MPath.scaleInter with
        | none => rfl
        | some dd =>
          exfalso
          simp_all [FS.hasFile]
    · -- no scaling
      refine afterScaling_success_clean p o _ _ _ out hout hst hPIcur
        (hfresh3 MPath.interH264 (by simp) (by simp))
        (fun b t => hfresh3 (MPath.finalTemp b t) (by simp) (by simp))
        (hfresh3 MPath.preResizeTemp (by simp) (by simp)) (Or.inl rfl)
        (fun _ => hfresh3 MPath.scaleInter (by simp) (by simp))
    · -- not a video, initial temp removed: no cascade ran
      cases hout
      simp at hst
    · -- not a video, initial temp already gone: no cascade ran
      cases hout
      simp at hst


instance (priority := low) : DecidableEq (Except String PAOut) := fun a b =>
  match a, b with
  | .ok x, .ok y =>
    if h : x = y then isTrue (by rw [h])
    else isFalse (by intro hc; cases hc; exact h rfl)
  | .error x, .error y =>
    if h : x = y then isTrue (by rw [h])
    else isFalse (by intro hc; cases hc; exact h rfl)
  | .ok _, .error _ => isFalse (by intro hc; cases hc)
  | .error _, .ok _ => isFalse (by intro hc; cases hc)

/-- Oracle whose direct VAAPI attempt succeeds immediately. -/
def oracleDirect : Oracle :=
  ⟨some ⟨100, 100, "h264"⟩, none, none, rFail, rFail, rFail, rGood 31,
   rFail, rFail, true, true, true⟩

/-- The outcome of one concrete successful-cascade run. -/
def sampleRunOut : PAOut :=
  ((processAnnot procVaapi oracleDirect 7 5 "video/x-matroska"
    ".mkv").toOption).getD ⟨none, [], [], none⟩

theorem claim3_success_cleanup_witness :
    (FS.look sampleRunOut.fs
      (.withExt (Processor.targetExtension procVaapi))).isSome = true ∧
    FS.look sampleRunOut.fs .tmpBin = none ∧
    FS.look sampleRunOut.fs .preResizeTemp = none ∧
    FS.look sampleRunOut.fs .scaleInter = none ∧
    FS.look sampleRunOut.fs .interH264 = none ∧
    (∀ b t, FS.look sampleRunOut.fs (.finalTemp b t) = none) :=
  claim3_success_cleanup procVaapi oracleDirect 7 5 "video/x-matroska" ".mkv"
    sampleRunOut (by decide) (by decide)

theorem preResize_look_input (p : Processor) (r : ExtResult) (fs : FS)
    (i : MPath) (v : Option VideoInfo) (d0 : FileData)
    (hi : FS.look fs i = some d0) (hip : i ≠ .preResizeTemp) :
    ∃ d', FS.look (performPreResize p r fs i v).2.2.1 i = some d' := by
  unfold performPreResize
  cases v with
  | none => split_ifs <;> exact ⟨d0, hi⟩
  | some vi =>
    dsimp only
    by_cases h1 : p.ffmpegPath = none
    · rw [if_pos h1]
      exact ⟨d0, hi⟩
    · rw [if_neg h1]
      by_cases h2 : (MAX_PRE_RESIZE_WIDTH = 0 ∨ MAX_PRE_RESIZE_HEIGHT = 0 ∨
          (vi.width ≤ MAX_PRE_RESIZE_WIDTH ∧ vi.height ≤ MAX_PRE_RESIZE_HEIGHT))
      · rw [if_pos h2]
        exact ⟨d0, hi⟩
      · rw [if_neg h2]
        set fs2 := (if r.outExists = true then
            FS.write (FS.write fs .preResizeTemp ⟨0, 0⟩) .preResizeTemp
              ⟨r.content, r.size⟩
          else FS.write fs .preResizeTemp ⟨0, 0⟩) with hfs2
        have hl2 : FS.look fs2 i = some d0 := by
          rw [hfs2]
          split_ifs <;>
            simp [FS.look_write, FS.look_erase, Ne.symm hip, hi]
        by_cases h3 : (r.returncode == 0 &&
            FS.bigFile fs2 .preResizeTemp) = true
        · rw [if_pos h3]
          dsimp only
          unfold FS.move
          cases hl : FS.look fs2 .preResizeTemp with
          | none => exact ⟨d0, hl2⟩
          | some dd => exact ⟨dd, by rw [FS.look_write, if_pos rfl]⟩
        · rw [if_neg h3]
          dsimp only
          refine ⟨d0, ?_⟩
          rw [look_condErase _ _ _ _ (Ne.symm hip)]
          exact hl2

theorem identifyPhase_renameOk (p : Processor) (o : Oracle) (d0 : FileData)
    (fe : String) (hren : o.renameInitialOk = true) :
    (identifyPhase p o (FS.write [] .tmpBin d0) fe).2.1 = .withExt fe ∧
    (FS.look (identifyPhase p o (FS.write [] .tmpBin d0) fe).2.2.1
      (.withExt fe)).isSome = true ∧
    FS.look (identifyPhase p o (FS.write [] .tmpBin d0) fe).2.2.1 .tmpBin
      = none := by
  unfold identifyPhase
  dsimp only
  rw [preResize_path]
  rw [if_pos (by simp : (MPath.tmpBin ≠ MPath.withExt fe)), if_pos hren]
  dsimp only
  obtain ⟨d', hd'⟩ := preResize_look_input p o.preResizeRes
    (FS.write [] .tmpBin d0) .tmpBin
    (getVideoInfo p (FS.write [] .tmpBin d0) .tmpBin o.probe1) d0
    (by simp [FS.look_write]) (by simp)
  have hfsa : FS.look (if FS.hasFile (performPreResize p o.preResizeRes
      (FS.write [] .tmpBin d0) .tmpBin
      (getVideoInfo p (FS.write [] .tmpBin d0) .tmpBin o.probe1)).2.2.1
        (.withExt fe) = true then
      FS.erase (performPreResize p o.preResizeRes (FS.write [] .tmpBin d0)
        .tmpBin (getVideoInfo p (FS.write [] .tmpBin d0) .tmpBin
          o.probe1)).2.2.1 (.withExt fe)
    else (performPreResize p o.preResizeRes (FS.write [] .tmpBin d0) .tmpBin
      (getVideoInfo p (FS.write [] .tmpBin d0) .tmpBin o.probe1)).2.2.1)
      .tmpBin = some d' := by
    rw [look_condErase _ _ _ _ (by simp)]
    exact hd'
  unfold FS.move
  rw [hfsa]
  refine ⟨rfl, ?_, ?_⟩
  · simp [FS.look_write]
  · simp [FS.look_write, FS.look_erase]

/-- Skipped final transcode: the working file is renamed to the canonical
name, bytes and MIME kept, no cascade, no new invocations. -/
theorem afterScaling_skip_keeps (p : Processor) (o : Oracle)
    (ent : StageEntry) (fs : FS) (trAcc : List Invocation) (d : FileData)
    (hskip : (finalTranscodeNeeded p ent.codecFFE ent.extFFE &&
      p.enableTranscoding) = false)
    (hren : o.renameNoTranscodeOk = true)
    (hfile : FS.look fs ent.pathFFE = some d) :
    ∃ out, afterScaling p o ent fs trAcc = .ok out ∧
      out.tr = trAcc ∧
      out.result = some ⟨.withExt p.targetExtension, ent.mimeFFE⟩ ∧
      FS.look out.fs (.withExt p.targetExtension) = some d ∧
      out.cascadeStatus = none := by
  obtain ⟨e1, e2, e3⟩ := finishNoTranscode_keeps o fs ent.pathFFE ent.mimeFFE
    (.withExt p.targetExtension) d hren hfile
  unfold afterScaling
  rw [hskip]
  simp only [Bool.false_eq_true, if_false]
  set fin := finishNoTranscode o fs ent.pathFFE ent.mimeFFE
    (.withExt p.targetExtension) with hfin
  have hlook : FS.look
      (cleanupPhase fin.fs fin.resultingPath none ent.scaledInter)
      fin.resultingPath = some d := by
    rw [cleanupPhase_look_res _ _ _ _ (by intro ip h; cases h), e1]
    exact e3
  have hhas : FS.hasFile
      (cleanupPhase fin.fs fin.resultingPath none ent.scaledInter)
      fin.resultingPath = true := by
    simp [FS.hasFile, hlook]
  refine ⟨_, rfl, rfl, ?_, ?_, rfl⟩
  · dsimp only
    rw [hhas]
    simp only [if_true, e1, e2]
  · dsimp only
    rw [← e1]
    exact hlook

/-- Processor with the encoding engine (and its prober) entirely absent. -/
def procNoFfmpeg : Processor := ⟨none, none, none, false, true, none⟩

/-- The outcome of one concrete engine-absent run on a `video/webm` item. -/
def sampleRun7 : PAOut :=
  ((processAnnot procNoFfmpeg oracleQuiet 7 5 "video/webm"
    ".webm").toOption).getD ⟨none, [], [], none⟩

/-- **C7, counterexample.**  With ffmpeg entirely absent and a detected
MIME type of `video/webm` (default target codec h264), the returned item
is *not* the extracted file renamed to the MIME-derived extension
`.webm`: no file exists under that name; the file was renamed onward to
the canonical target name `safe_base + ".mp4"` (and zero encoder
invocations were attempted). -/
theorem claim7_no_engine_counterexample :
    sampleRun7.result = some ⟨.withExt ".mp4", "video/webm"⟩ ∧
    FS.look sampleRun7.fs (.withExt ".webm") = none ∧
    (MPath.withExt ".mp4" ≠ MPath.withExt ".webm") ∧
    sampleRun7.tr = [] := by decide

/-- **C7, amended.**  When the encoding engine is entirely absent, every
extracted video item is returned as its original extracted bytes renamed
— via the MIME-derived name — to the *canonical output name* (safe base
plus the target extension), with the detected MIME type in the returned
record and zero transcoding-stage invocations attempted. -/
theorem claim7_no_engine (p : Processor) (o : Oracle) (sc ss : Nat)
    (dm fe : String)
    (hff : p.ffmpegPath = none)
    (hss : ss ≠ 0)
    (hsv : strStartsWith dm "video/" = true)
    (hren1 : o.renameInitialOk = true)
    (hren2 : o.renameNoTranscodeOk = true) :
    ∃ out, processAnnot p o sc ss dm fe = .ok out ∧
      out.tr = [] ∧
      out.result = some ⟨.withExt p.targetExtension, dm⟩ ∧
      FS.look out.fs (.withExt p.targetExtension) = some ⟨sc, ss⟩ := by
  have hen : p.enableTranscoding = false := by
    simp [Processor.enableTranscoding, hff]
  obtain ⟨e1, e2, e3⟩ := identifyPhase_noFfmpeg p o ⟨sc, ss⟩ fe hff hren1
  unfold processAnnot
  rw [if_neg hss]
  dsimp only
  rw [if_pos hsv, if_neg (by simp [hen]), e1, e2, e3]
  obtain ⟨out, hout, h1, h2, h3, h4⟩ := afterScaling_skip_keeps p o
    ⟨.withExt fe, (identifyPhase p o (FS.write []
        .tmpBin ⟨sc, ss⟩) fe).2.2.2.1.map VideoInfo.codecName,
      (MPath.withExt fe).splitextExtLower, dm, none⟩
    (FS.write [] (.withExt fe) ⟨sc, ss⟩) [] ⟨sc, ss⟩
    (by rw [hen, Bool.and_false]) hren2 (by simp [FS.look_write])
  exact ⟨out, hout, h1, h2, h3⟩

theorem claim7_no_engine_witness :
    ∃ out, processAnnot procNoFfmpeg oracleQuiet 7 5 "video/webm" ".webm"
        = .ok out ∧
      out.tr = [] ∧
      out.result = some ⟨.withExt (Processor.targetExtension procNoFfmpeg),
        "video/webm"⟩ ∧
      FS.look out.fs (.withExt (Processor.targetExtension procNoFfmpeg)) =
        some ⟨7, 5⟩ :=
  claim7_no_engine procNoFfmpeg oracleQuiet 7 5 "video/webm" ".webm"
    rfl (by decide) (by decide) rfl rfl

/-- **C10.** For every annotation whose detected content type does not
start with `video/`, `process_annotation` returns `None` — no result
record, exactly as if extraction had failed — even though extraction
succeeded; the extracted file, renamed to its MIME-derived extension, is
left in the media output directory while the initial `.tmp.bin` name no
longer exists (it was moved away and the early exit removes it only when
it differs from the current working file). -/
theorem claim10_non_video (p : Processor) (o : Oracle) (sc ss : Nat)
    (dm fe : String)
    (hss : ss ≠ 0)
    (hnv : strStartsWith dm "video/" = false)
    (hren : o.renameInitialOk = true) :
    ∃ out, processAnnot p o sc ss dm fe = .ok out ∧
      out.result = none ∧
      (FS.look out.fs (.withExt fe)).isSome = true ∧
      FS.look out.fs .tmpBin = none := by
  obtain ⟨e1, e2, e3⟩ := identifyPhase_renameOk p o ⟨sc, ss⟩ fe hren
  unfold processAnnot
  rw [if_neg hss]
  dsimp only
  rw [if_neg (by simp [hnv])]
  refine ⟨_, rfl, rfl, ?_, ?_⟩
  · dsimp only
    rw [look_condErase _ _ _ _ (by simp)]
    exact e2
  · dsimp only
    exact look_condErase_none _ _ _ _ e3

theorem claim10_non_video_witness :
    ∃ out, processAnnot procPlain oracleQuiet 7 5 "image/png" ".png"
        = .ok out ∧
      out.result = none ∧
      (FS.look out.fs (.withExt ".png")).isSome = true ∧
      FS.look out.fs .tmpBin = none :=
  claim10_non_video procPlain oracleQuiet 7 5 "image/png" ".png"
    (by decide) (by decide) rfl

theorem claim6_audio_fixed_witness :
    (["-c:a", "aac", "-b:a", "128k"] : List String) =
      (if Processor.targetExtension procVaapi = ".webm"
       then ["-c:a", "libopus", "-b:a", "96k"]
       else ["-c:a", "aac", "-b:a", "128k"]) :=
  claim6_audio_fixed procVaapi oracleVaapiMix [] (.withExt ".webm")
    (some "hevc")
    (cascadeSpec procVaapi oracleVaapiMix [] (.withExt ".webm") (some "hevc"))
    (by decide) (by decide) rfl (fun b t => rfl)
    (runCascade_eq procVaapi oracleVaapiMix [] (.withExt ".webm")
      (some "hevc") (by decide) (by decide) rfl (fun b t => rfl))
    (.finalEncode (.withExt ".webm") (.withExt ".mp4") "h264" (some "hevc")
      true true ["-c:a", "aac", "-b:a", "128k"])
    (by decide) ["-c:a", "aac", "-b:a", "128k"] (by decide)
